import Mathlib

/-!
Shallow embedding of the matching-and-scoring engine of the AccessLint
benchmark (src/bench/lib/matching.ts, src/bench/score.ts,
src/bench/lib/types.ts), together with theorems settling the frozen
claims about it.

Strings are modelled as Lean `String` / `List Char`; JavaScript numbers
used for scores and rates are modelled as `Nat` / `ℚ` (all arithmetic in
the scoring paths is exact on small integers); `Math.sqrt` is modelled
as `Real.sqrt`.
-/

namespace Bench

/-! ## Basic string operations (JS `trim`, `toLowerCase`, `includes`) -/

/-- Whitespace recognised by JS `trim` (ASCII part, which is all the
benchmark data contains). -/
def isWsChar (c : Char) : Bool :=
  c = ' ' || c = '\t' || c = '\n' || c = '\r' || c = '\x0b' || c = '\x0c'

/-- JS `String.prototype.trim`. -/
def trimL (l : List Char) : List Char :=
  ((l.dropWhile isWsChar).reverse.dropWhile isWsChar).reverse

/-- JS `String.prototype.toLowerCase` (ASCII). -/
def lowerL (l : List Char) : List Char := l.map Char.toLower

/-- `s.toLowerCase().trim()` as done on both arguments of
`elementMatchScore`. -/
def normL (l : List Char) : List Char := trimL (lowerL l)

/-- `needle` occurs at the start of `hay`. -/
def isPrefixL : List Char → List Char → Bool
  | [], _ => true
  | _ :: _, [] => false
  | a :: as, b :: bs => a = b && isPrefixL as bs

/-- JS `hay.includes(needle)`. -/
def containsL (hay needle : List Char) : Bool :=
  isPrefixL needle hay ||
    match hay with
    | [] => false
    | _ :: rest => containsL rest needle

theorem isPrefixL_iff (needle hay : List Char) :
    isPrefixL needle hay = true ↔ needle <+: hay := by
  induction needle generalizing hay with
  | nil => simp [isPrefixL]
  | cons a as ih =>
    cases hay with
    | nil => simp [isPrefixL]
    | cons b bs =>
      simp only [isPrefixL, Bool.and_eq_true, decide_eq_true_eq, ih,
        List.cons_prefix_cons]

theorem containsL_iff (hay needle : List Char) :
    containsL hay needle = true ↔ needle <:+: hay := by
  induction hay with
  | nil =>
    simp [containsL, isPrefixL_iff, List.prefix_nil, List.infix_nil]
  | cons b bs ih =>
    simp only [containsL, Bool.or_eq_true, isPrefixL_iff, ih,
      List.infix_cons_iff]

/-! ## Regular expressions

The keyword patterns of `matching.ts` use only word boundaries `\b`,
literal characters, `.` (any character), `.*`, and alternation groups.
They are embedded as an abstract syntax tree together with a
nondeterministic matcher.  `reTest` is JS `RegExp.prototype.test`
(search anywhere in the string); the `/i` flag is realised by lowering
the subject string and writing the patterns in lowercase (they contain
only ASCII letters, spaces, hyphens and `.`). -/

inductive RE where
  | eps : RE
  | anyc : RE
  | lit : Char → RE
  | cat : RE → RE → RE
  | alt : RE → RE → RE
  | wb : RE
  | dotStar : RE
deriving Repr, DecidableEq

/-- JS `\w` (word character): `[A-Za-z0-9_]`. -/
def isWordChar (c : Char) : Bool := c.isAlphanum || c = '_'

/-- Word-boundary test between the previously consumed character and the
head of the remaining input. -/
def atBoundary (prev : Option Char) (s : List Char) : Bool :=
  let before := match prev with | some c => isWordChar c | none => false
  let after := match s with | c :: _ => isWordChar c | [] => false
  before != after

/-- JS `.` matches any character except line terminators. -/
def isDotChar (c : Char) : Bool :=
  !(c = '\n' || c = '\r' || c = '\u2028' || c = '\u2029')

/-- All ways of consuming zero or more leading characters (`.*`), as
(matcher states) pairs of last-consumed character and remaining input. -/
def suffixStates (prev : Option Char) : List Char → List (Option Char × List Char)
  | [] => [(prev, [])]
  | c :: rest =>
    (prev, c :: rest) ::
      (if isDotChar c then suffixStates (some c) rest else [])

/-- Nondeterministic matcher: all states reachable by matching `r`
starting from state `(prev, s)`. -/
def reStates (r : RE) (prev : Option Char) (s : List Char) :
    List (Option Char × List Char) :=
  match r with
  | .eps => [(prev, s)]
  | .anyc =>
    match s with
    | [] => []
    | c :: rest => if isDotChar c then [(some c, rest)] else []
  | .lit ch =>
    match s with
    | [] => []
    | c :: rest => if c = ch then [(some c, rest)] else []
  | .cat a b => (reStates a prev s).flatMap fun st => reStates b st.1 st.2
  | .alt a b => reStates a prev s ++ reStates b prev s
  | .wb => if atBoundary prev s then [(prev, s)] else []
  | .dotStar => suffixStates prev s

/-- Search for a match starting at the current or any later position. -/
def reSearch (r : RE) (prev : Option Char) (s : List Char) : Bool :=
  !(reStates r prev s).isEmpty ||
    match s with
    | [] => false
    | c :: rest => reSearch r (some c) rest

/-- JS `regex.test(subject)` (subject already lowercased by the caller
for `/i` patterns). -/
def reTest (r : RE) (s : List Char) : Bool := reSearch r none s

/-- Concatenation of a list of regexes. -/
def seqRe : List RE → RE
  | [] => .eps
  | [r] => r
  | r :: rest => .cat r (seqRe rest)

/-- Alternation group `(a|b|...)`. -/
def altRe : List RE → RE
  | [] => .eps
  | [r] => r
  | r :: rest => .alt r (altRe rest)

/-- A literal word. -/
def strRe (s : String) : RE := seqRe (s.data.map RE.lit)

/-! ## Candidate resolution tables (matching.ts) -/

/-- `WCAG_TO_RULES`: WCAG success criterion → possible rule ids. -/
def wcagToRules : List (String × List String) := [
  ("1.1.1", [
    "text-alternatives/img-alt",
    "text-alternatives/image-alt-words",
    "text-alternatives/input-image-alt",
    "text-alternatives/role-img-alt",
    "text-alternatives/svg-img-alt"]),
  ("1.3.1", [
    "adaptable/list-children",
    "adaptable/listitem-parent",
    "adaptable/definition-list",
    "adaptable/scope-attr-valid",
    "adaptable/empty-table-header"]),
  ("1.4.4", ["distinguishable/meta-viewport"]),
  ("1.4.10", ["distinguishable/meta-viewport"]),
  ("2.1.1", ["keyboard-accessible/tabindex"]),
  ("2.2.2", ["enough-time/blink", "enough-time/marquee"]),
  ("2.4.1", ["navigable/bypass", "landmarks/region"]),
  ("2.4.2", ["navigable/document-title"]),
  ("2.4.4", ["navigable/link-name"]),
  ("2.4.6", [
    "navigable/heading-order",
    "navigable/empty-heading",
    "navigable/page-has-heading-one"]),
  ("3.1.1", ["readable/html-has-lang"]),
  ("4.1.2", [
    "labels-and-names/button-name",
    "labels-and-names/form-label",
    "labels-and-names/input-button-name",
    "labels-and-names/frame-title",
    "labels-and-names/aria-dialog-name"]),
  ("4.1.1", [
    "aria/aria-roles",
    "aria/aria-valid-attr-value",
    "aria/aria-allowed-role"]),
  ("4.1.3", [
    "aria/aria-hidden-focus",
    "aria/presentation-role-conflict",
    "aria/presentational-children-focusable"]),
  ("1.3.6", [
    "landmarks/landmark-main",
    "landmarks/banner-is-top-level",
    "landmarks/contentinfo-is-top-level",
    "landmarks/complementary-is-top-level"])]

/-- `KEYWORD_PATTERNS`: keyword regexes on the issue text → rule id,
in source order.  Every `/i` pattern is written lowercase and tested
against the lowercased issue text. -/
def keywordPatterns : List (RE × String) := [
  -- text-alternatives
  (seqRe [.wb, strRe "alt", .wb, .dotStar, .wb,
    altRe [strRe "missing", strRe "attribute", strRe "text"], .wb],
    "text-alternatives/img-alt"),
  (seqRe [.wb, strRe "img", .wb, .dotStar, .wb,
    altRe [strRe "missing", strRe "no"], .wb, .dotStar, .wb, strRe "alt", .wb],
    "text-alternatives/img-alt"),
  (seqRe [.wb, strRe "image", .wb, .dotStar, .wb,
    altRe [strRe "missing", strRe "no"], .wb, .dotStar, .wb, strRe "alt", .wb],
    "text-alternatives/img-alt"),
  (seqRe [.wb, strRe "alt", .wb, .dotStar, .wb,
    altRe [strRe "suspicious", strRe "decorative", strRe "placeholder",
      strRe "redundant", strRe "filename"], .wb],
    "text-alternatives/image-alt-words"),
  (seqRe [.wb, strRe "image", .wb, .dotStar, .wb, strRe "alt", .wb, .dotStar,
    .wb, altRe [strRe "word", strRe "text"], .wb],
    "text-alternatives/image-alt-words"),
  (seqRe [.wb, strRe "input", .dotStar, strRe "type", .dotStar, strRe "image",
    .wb, .dotStar, .wb, strRe "alt", .wb],
    "text-alternatives/input-image-alt"),
  (seqRe [.wb, strRe "role", .dotStar, strRe "img", .wb, .dotStar, .wb,
    altRe [strRe "alt", strRe "label", strRe "name"], .wb],
    "text-alternatives/role-img-alt"),
  (seqRe [.wb, strRe "svg", .wb, .dotStar, .wb,
    altRe [strRe "alt", strRe "label", strRe "name", strRe "title"], .wb],
    "text-alternatives/svg-img-alt"),
  -- labels-and-names
  (seqRe [.wb, strRe "button", .wb, .dotStar, .wb,
    altRe [strRe "name", strRe "label", strRe "text"], .wb],
    "labels-and-names/button-name"),
  (seqRe [.wb, altRe [strRe "form", strRe "input", strRe "select",
    strRe "textarea"], .wb, .dotStar, .wb, strRe "label", .wb],
    "labels-and-names/form-label"),
  (seqRe [.wb, strRe "label", .wb, .dotStar, .wb,
    altRe [strRe "form", strRe "input", strRe "select", strRe "textarea"], .wb],
    "labels-and-names/form-label"),
  (seqRe [.wb, strRe "input", .dotStar, strRe "button", .wb, .dotStar, .wb,
    strRe "name", .wb],
    "labels-and-names/input-button-name"),
  (seqRe [.wb, altRe [strRe "iframe", strRe "frame"], .wb, .dotStar, .wb,
    strRe "title", .wb],
    "labels-and-names/frame-title"),
  (seqRe [.wb, strRe "dialog", .wb, .dotStar, .wb,
    altRe [strRe "name", strRe "label"], .wb],
    "labels-and-names/aria-dialog-name"),
  (seqRe [.wb, strRe "alertdialog", .wb, .dotStar, .wb,
    altRe [strRe "name", strRe "label"], .wb],
    "labels-and-names/aria-dialog-name"),
  -- navigable
  (seqRe [.wb, strRe "heading", .wb, .dotStar, .wb,
    altRe [strRe "order", strRe "hierarchy", strRe "level", strRe "skip"], .wb],
    "navigable/heading-order"),
  (seqRe [.wb, strRe "empty", .wb, .dotStar, .wb, strRe "heading", .wb],
    "navigable/empty-heading"),
  (seqRe [.wb, strRe "heading", .wb, .dotStar, .wb, strRe "empty", .wb],
    "navigable/empty-heading"),
  (seqRe [.wb, altRe [strRe "page", strRe "document"], .wb, .dotStar, .wb,
    strRe "heading", .wb, .dotStar, .wb, strRe "one", .wb],
    "navigable/page-has-heading-one"),
  (seqRe [.wb, strRe "h1", .wb, .dotStar, .wb, strRe "missing", .wb],
    "navigable/page-has-heading-one"),
  (seqRe [.wb, strRe "missing", .wb, .dotStar, .wb, strRe "h1", .wb],
    "navigable/page-has-heading-one"),
  (seqRe [.wb, strRe "link", .wb, .dotStar, .wb,
    altRe [strRe "name", strRe "text", strRe "accessible"], .wb],
    "navigable/link-name"),
  (seqRe [.wb, strRe "document", .wb, .dotStar, .wb, strRe "title", .wb],
    "navigable/document-title"),
  (seqRe [.wb, strRe "title", .wb, .dotStar, .wb,
    altRe [strRe "missing", strRe "element"], .wb],
    "navigable/document-title"),
  (seqRe [.wb, strRe "bypass", .wb, .dotStar, .wb, strRe "block"],
    "navigable/bypass"),
  (seqRe [.wb, strRe "skip", .wb, .dotStar, .wb,
    altRe [strRe "link", strRe "nav", strRe "content"], .wb],
    "navigable/bypass"),
  -- readable
  (seqRe [.wb, strRe "lang", .wb, .dotStar, .wb,
    altRe [strRe "attribute", strRe "missing"], .wb],
    "readable/html-has-lang"),
  (seqRe [.wb, strRe "language", .wb, .dotStar, .wb,
    altRe [strRe "missing", strRe "attribute", strRe "html"], .wb],
    "readable/html-has-lang"),
  -- aria
  (seqRe [.wb, altRe [strRe "invalid", strRe "unknown"], .wb, .dotStar, .wb,
    strRe "role", .wb],
    "aria/aria-roles"),
  (seqRe [.wb, strRe "role", .wb, .dotStar, .wb,
    altRe [strRe "invalid", strRe "unknown", strRe "not allowed"], .wb],
    "aria/aria-roles"),
  (seqRe [.wb, strRe "aria", .wb, .dotStar, .wb,
    altRe [strRe "attribute", strRe "value"], .wb, .dotStar, .wb,
    strRe "invalid", .wb],
    "aria/aria-valid-attr-value"),
  (seqRe [.wb, strRe "invalid", .wb, .dotStar, .wb, strRe "aria", .wb,
    .dotStar, .wb, altRe [strRe "attribute", strRe "value"], .wb],
    "aria/aria-valid-attr-value"),
  (seqRe [.wb, strRe "role", .wb, .dotStar, .wb, strRe "not", .wb, .dotStar,
    .wb, strRe "allowed", .wb],
    "aria/aria-allowed-role"),
  (seqRe [.wb, strRe "allowed", .wb, .dotStar, .wb, strRe "role", .wb],
    "aria/aria-allowed-role"),
  (seqRe [.wb, strRe "aria-hidden", .wb, .dotStar, .wb, strRe "focus"],
    "aria/aria-hidden-focus"),
  (seqRe [.wb, strRe "focus", .wb, .dotStar, .wb, strRe "aria-hidden", .wb],
    "aria/aria-hidden-focus"),
  (seqRe [.wb, strRe "presentation", .wb, .dotStar, .wb,
    altRe [strRe "role", strRe "conflict"], .wb],
    "aria/presentation-role-conflict"),
  (seqRe [.wb, strRe "presentational", .wb, .dotStar, .wb, strRe "children",
    .wb, .dotStar, .wb, strRe "focus"],
    "aria/presentational-children-focusable"),
  -- landmarks
  (seqRe [.wb, altRe [strRe "main", strRe "landmark"], .wb, .dotStar, .wb,
    altRe [strRe "missing", strRe "region"], .wb],
    "landmarks/landmark-main"),
  (seqRe [.wb, strRe "banner", .wb, .dotStar, .wb,
    altRe [seqRe [strRe "top", .anyc, strRe "level"], strRe "nested"], .wb],
    "landmarks/banner-is-top-level"),
  (seqRe [.wb, strRe "contentinfo", .wb, .dotStar, .wb,
    altRe [seqRe [strRe "top", .anyc, strRe "level"], strRe "nested"], .wb],
    "landmarks/contentinfo-is-top-level"),
  (seqRe [.wb, strRe "complementary", .wb, .dotStar, .wb,
    altRe [seqRe [strRe "top", .anyc, strRe "level"], strRe "nested"], .wb],
    "landmarks/complementary-is-top-level"),
  (seqRe [.wb, strRe "region", .wb, .dotStar, .wb,
    altRe [strRe "landmark", strRe "outside"], .wb],
    "landmarks/region"),
  (seqRe [.wb, strRe "content", .wb, .dotStar, .wb, strRe "outside", .wb,
    .dotStar, .wb, strRe "landmark", .wb],
    "landmarks/region"),
  -- adaptable
  (seqRe [.wb, strRe "list", .wb, .dotStar, .wb, strRe "children", .wb],
    "adaptable/list-children"),
  (seqRe [.wb, strRe "list", .wb, .dotStar, .wb,
    altRe [strRe "item", strRe "li"], .wb, .dotStar, .wb, strRe "parent", .wb],
    "adaptable/listitem-parent"),
  (seqRe [.wb, strRe "definition", .wb, .dotStar, .wb, strRe "list", .wb],
    "adaptable/definition-list"),
  (seqRe [.wb, strRe "scope", .wb, .dotStar, .wb,
    altRe [strRe "attribute", strRe "invalid"], .wb],
    "adaptable/scope-attr-valid"),
  (seqRe [.wb, strRe "empty", .wb, .dotStar, .wb, strRe "table", .wb, .dotStar,
    .wb, strRe "header", .wb],
    "adaptable/empty-table-header"),
  (seqRe [.wb, strRe "table", .wb, .dotStar, .wb, strRe "header", .wb,
    .dotStar, .wb, strRe "empty", .wb],
    "adaptable/empty-table-header"),
  -- distinguishable
  (seqRe [.wb, strRe "meta", .wb, .dotStar, .wb, strRe "viewport", .wb],
    "distinguishable/meta-viewport"),
  (seqRe [.wb, strRe "viewport", .wb, .dotStar, .wb,
    altRe [strRe "scal", strRe "zoom"], .wb],
    "distinguishable/meta-viewport"),
  (seqRe [.wb, strRe "user", .anyc, strRe "scal"],
    "distinguishable/meta-viewport"),
  -- keyboard
  (seqRe [.wb, strRe "tabindex", .wb],
    "keyboard-accessible/tabindex"),
  (seqRe [.wb, strRe "tab", .wb, .dotStar, .wb, strRe "order", .wb, .dotStar,
    .wb, strRe "positive", .wb],
    "keyboard-accessible/tabindex"),
  -- enough-time
  (seqRe [.wb, strRe "blink", .wb], "enough-time/blink"),
  (seqRe [.wb, strRe "marquee", .wb], "enough-time/marquee")]

/-! ## Data model (types.ts)

Impacts are modelled as strings, as in the source: `ExpectedViolation`
and `RawViolation` declare `impact: string`, and the `IMPACT_SCORES`
lookup falls back to `0` for strings outside the four-value scale. -/

/-- `ExpectedViolation` of types.ts. -/
structure ExpectedViolation where
  ruleId : String
  selectorPattern : String
  impact : String
deriving Repr, DecidableEq, Inhabited

/-- `ClaudeViolation` of types.ts (a free-text defect). -/
structure ClaudeViolation where
  element : String
  issue : String
  wcagCriterion : String
  impact : String
deriving Repr, DecidableEq, Inhabited

/-- `RawViolation` of types.ts.  The optional `issue`/`wcagCriterion`
fields are modelled as always-present strings (the source reads them
with `?? ""`). -/
structure RawViolation where
  ruleId : String
  selector : String
  impact : String
  issue : String
  wcagCriterion : String
deriving Repr, DecidableEq, Inhabited

/-! ## CandidateResolver (`getCandidateRuleIds`) -/

/-- `violation.wcagCriterion?.replace(/^sc\s*/i, "").trim()`. -/
def normCriterion (s : String) : String :=
  let l := s.data
  let stripped :=
    match l with
    | a :: b :: rest =>
      if a.toLower = 's' && b.toLower = 'c' then rest.dropWhile isWsChar else l
    | _ => l
  String.mk (trimL stripped)

/-- `Set.add` followed by insertion-order iteration: append if absent. -/
def addUnique (acc : List String) (x : String) : List String :=
  if x ∈ acc then acc else acc ++ [x]

/-- `getCandidateRuleIds` of matching.ts on its non-throwing paths:
union of the criterion-table signal and the keyword-pattern signal,
deduplicated in insertion order.  This total function models only the
inputs on which the source returns; the source's bracket access
`WCAG_TO_RULES[criterion]` can also throw (see
`getCandidateRuleIdsE`, the faithful fallible version, and
`getCandidateRuleIdsE_ok_eq`, which shows this function agrees with it
on every returning input). -/
def getCandidateRuleIds (cv : ClaudeViolation) : List String :=
  let crit := normCriterion cv.wcagCriterion
  let fromCriterion :=
    if crit ≠ "" then
      match wcagToRules.lookup crit with
      | some rules => rules.foldl addUnique []
      | none => []
    else []
  keywordPatterns.foldl
    (fun acc p =>
      if reTest p.1 (lowerL cv.issue.data) then addUnique acc p.2 else acc)
    fromCriterion

/-- The property names of `Object.prototype`: `WCAG_TO_RULES` is a
plain object literal, so bracket access with one of these keys walks
the prototype chain and yields an inherited value (a function, or the
prototype object itself for `__proto__`) instead of `undefined`. -/
def objectProtoProps : List String :=
  ["constructor", "hasOwnProperty", "isPrototypeOf",
   "propertyIsEnumerable", "toLocaleString", "toString", "valueOf",
   "__defineGetter__", "__defineSetter__", "__lookupGetter__",
   "__lookupSetter__", "__proto__"]

/-- The outcome of the JS bracket access `WCAG_TO_RULES[criterion]`:
an own property (one of the table's rule-id arrays), an inherited
`Object.prototype` member (truthy but not iterable), or `undefined`. -/
inductive TableHit where
  | own : List String → TableHit
  | inherited : TableHit
  | undef : TableHit
deriving Repr, DecidableEq

/-- `WCAG_TO_RULES[criterion]` with the prototype chain made
explicit. -/
def wcagBracketAccess (crit : String) : TableHit :=
  match wcagToRules.lookup crit with
  | some rules => TableHit.own rules
  | none =>
    if crit ∈ objectProtoProps then TableHit.inherited else TableHit.undef

/-- `getCandidateRuleIds` of matching.ts with the JS error path made
explicit.  When the normalized criterion is truthy and the bracket
access finds an inherited `Object.prototype` member, `if (rules)`
passes (the value is truthy) and `for (const r of rules)` throws
`TypeError: rules is not iterable`, modelled as `Except.error ()`;
otherwise the function returns the candidate list. -/
def getCandidateRuleIdsE (cv : ClaudeViolation) :
    Except Unit (List String) :=
  let crit := normCriterion cv.wcagCriterion
  match (if crit ≠ "" then
      match wcagBracketAccess crit with
      | TableHit.own rules => Except.ok (rules.foldl addUnique [])
      | TableHit.inherited => Except.error ()
      | TableHit.undef => Except.ok ([] : List String)
    else Except.ok ([] : List String)) with
  | Except.error e => Except.error e
  | Except.ok start =>
    Except.ok (keywordPatterns.foldl
      (fun acc p =>
        if reTest p.1 (lowerL cv.issue.data) then addUnique acc p.2 else acc)
      start)

/-! ## ElementMatcher (`elementMatchScore`) -/

/-- The leading tag name: JS `ce.match(/^([a-z][a-z0-9]*)/)?.[1]`. -/
def tagOf (l : List Char) : Option (List Char) :=
  match l with
  | [] => none
  | c :: rest =>
    if 'a' ≤ c ∧ c ≤ 'z' then
      some (c :: rest.takeWhile fun d =>
        ('a' ≤ d && d ≤ 'z') || ('0' ≤ d && d ≤ '9'))
    else none

/-- Characters up to (and excluding) the first `]`, plus the rest after
that `]`; `none` when no `]` occurs. -/
def takeUntilRB : List Char → Option (List Char × List Char)
  | [] => none
  | c :: rest =>
    if c = ']' then some ([], rest)
    else (takeUntilRB rest).map fun p => (c :: p.1, p.2)

theorem takeUntilRB_length :
    ∀ {l content rest : List Char}, takeUntilRB l = some (content, rest) →
      rest.length < l.length := by
  intro l
  induction l with
  | nil => intro content rest h; simp [takeUntilRB] at h
  | cons c cs ih =>
    intro content rest h
    simp only [takeUntilRB] at h
    by_cases hc : c = ']'
    · simp [hc] at h
      simp [← h.2, List.length_cons, Nat.lt_succ_self]
    · simp only [hc, if_neg, ite_false, Option.map_eq_some'] at h
      obtain ⟨p, hp, he⟩ := h
      have := @ih p.1 p.2 (by rw [hp])
      have h2 : p.2 = rest := by
        have := congrArg Prod.snd he; simpa using this
      rw [← h2]
      exact Nat.lt_succ_of_lt this

/-- All capture groups of `ce.matchAll(/\[([^\]]+)\]/g)`: the bracketed
attribute tokens, left to right, non-overlapping. -/
def bracketTokens (l : List Char) : List (List Char) :=
  match l with
  | [] => []
  | c :: rest =>
    if c = '[' then
      match h : takeUntilRB rest with
      | some (content, after) =>
        if content.isEmpty then bracketTokens rest
        else content :: bracketTokens after
      | none => []
    else bracketTokens rest
termination_by l.length
decreasing_by
  · simp [List.length_cons, Nat.lt_succ_self]
  · exact Nat.lt_succ_of_lt (takeUntilRB_length h)
  · simp [List.length_cons, Nat.lt_succ_self]

/-- The attribute name before `=`: JS `ca.split("=")[0]`. -/
def attrName (l : List Char) : List Char := l.takeWhile fun c => c ≠ '='

/-- The captured digits of the first full match of
`/nth-of-type\((\d+)\)/`, if any, at this exact position. -/
def nthHere (l : List Char) : Option (List Char) :=
  if isPrefixL "nth-of-type(".data l then
    let rest := l.drop 12
    let digits := rest.takeWhile Char.isDigit
    if digits.isEmpty then none
    else
      match rest.drop digits.length with
      | ')' :: _ => some digits
      | _ => none
  else none

/-- `ce.match(/nth-of-type\((\d+)\)/)?.[1]`: first match anywhere. -/
def nthIndexOf : List Char → Option (List Char)
  | [] => none
  | c :: rest =>
    match nthHere (c :: rest) with
    | some d => some d
    | none => nthIndexOf rest

/-- `elementMatchScore` of matching.ts on character lists. -/
def elemScoreL (ceRaw spRaw : List Char) : Nat :=
  if ceRaw.isEmpty || spRaw.isEmpty then 0
  else
    let ce := normL ceRaw
    let sp := normL spRaw
    if ce = sp then 10
    else if containsL ce sp || containsL sp ce then 7
    else
      let tagScore :=
        match tagOf ce, tagOf sp with
        | some t1, some t2 => if t1 = t2 then 3 else 0
        | _, _ => 0
      let attrScore :=
        ((bracketTokens ce).map fun ca =>
          ((bracketTokens sp).map fun sa =>
            if ca = sa then 3
            else if attrName ca = attrName sa then 1
            else 0).sum).sum
      let nthScore :=
        match nthIndexOf ce, nthIndexOf sp with
        | some a, some b => if a = b then 2 else 0
        | _, _ => 0
      tagScore + attrScore + nthScore

/-- `elementMatchScore(claudeElement, selectorPattern)`. -/
def elementMatchScore (claudeElement selectorPattern : String) : Nat :=
  elemScoreL claudeElement.data selectorPattern.data

/-! ## Impact bonus -/

/-- `IMPACT_SCORES[s] ?? 0`. -/
def impactScore (s : String) : Nat :=
  if s = "critical" then 3
  else if s = "serious" then 2
  else if s = "moderate" then 1
  else 0

/-- The impact bonus used by `matchClaudeViolations`: +2 for equality,
+1 when the numeric impact scores differ by at most 1, else 0. -/
def impactBonus (a b : String) : Nat :=
  if a = b then 2
  else if ((impactScore a : Int) - impactScore b).natAbs ≤ 1 then 1
  else 0

/-! ## GreedyAssigner (`matchClaudeViolations`) -/

/-- The composite score `elemScore + impactBonus` for one
reported/expected pair. -/
def totalScoreOf (cv : ClaudeViolation) (ev : ExpectedViolation) : Nat :=
  elementMatchScore cv.element ev.selectorPattern +
    impactBonus cv.impact ev.impact

/-- The inner `for (let i = 0; ...)` loop of `matchClaudeViolations`:
running best `(bestIdx, bestScore)` over the expected defects starting
at index `i`, skipping consumed indices and non-candidate rule ids,
updating only on a strictly larger score. -/
def pickLoop (cv : ClaudeViolation) (cands : List String)
    (already : List Nat) :
    Nat → List ExpectedViolation → Option Nat × Nat → Option Nat × Nat
  | _, [], best => best
  | i, ev :: rest, best =>
    pickLoop cv cands already (i + 1) rest
      (if i ∈ already then best
       else if ev.ruleId ∈ cands then
         if best.2 < totalScoreOf cv ev then (some i, totalScoreOf cv ev)
         else best
       else best)

/-- The index of the expected defect a reported defect is matched to,
if any (`bestIdx` after the loop, `none` for `-1`). -/
def pickBest (cv : ClaudeViolation) (cands : List String)
    (already : List Nat) (expected : List ExpectedViolation) : Option Nat :=
  (pickLoop cv cands already 0 expected ((none : Option Nat), 0)).1

/-- The mutable state of the outer loop: consumed expected indices,
matched pairs (stored with the expected index) and false positives. -/
structure MatchState where
  alreadyMatched : List Nat
  matchedIdx : List (Nat × ClaudeViolation)
  falsePositives : List ClaudeViolation
deriving Repr, DecidableEq

/-- One iteration of the outer loop of `matchClaudeViolations`. -/
def matchStep (expected : List ExpectedViolation) (st : MatchState)
    (cv : ClaudeViolation) : MatchState :=
  match pickBest cv (getCandidateRuleIds cv) st.alreadyMatched expected with
  | some i =>
    { alreadyMatched := st.alreadyMatched ++ [i]
      matchedIdx := st.matchedIdx ++ [(i, cv)]
      falsePositives := st.falsePositives }
  | none => { st with falsePositives := st.falsePositives ++ [cv] }

/-- `MatchResult` of matching.ts. -/
structure MatchResult where
  tp : Nat
  fp : Nat
  fn : Nat
  matched : List (ExpectedViolation × ClaudeViolation)
  falsePositives : List ClaudeViolation
  missed : List ExpectedViolation
deriving Repr, DecidableEq

/-- The final loop state of `matchClaudeViolations`. -/
def matchRun (claude : List ClaudeViolation)
    (expected : List ExpectedViolation) : MatchState :=
  claude.foldl (matchStep expected) ⟨[], [], []⟩

/-- `matchClaudeViolations` of matching.ts. -/
def matchClaudeViolations (claude : List ClaudeViolation)
    (expected : List ExpectedViolation) : MatchResult :=
  let st := matchRun claude expected
  let matched := st.matchedIdx.map fun p => (expected.getD p.1 default, p.2)
  let missed :=
    (expected.enum.filter fun p =>
      decide (p.1 ∉ st.alreadyMatched)).map Prod.snd
  { tp := matched.length
    fp := st.falsePositives.length
    fn := missed.length
    matched := matched
    falsePositives := st.falsePositives
    missed := missed }

/-- `claudeToRawViolations` of matching.ts. -/
def claudeToRawViolations (violations : List ClaudeViolation)
    (expected : List ExpectedViolation) : List RawViolation :=
  let mr := matchClaudeViolations violations expected
  (mr.matched.map fun m =>
    { ruleId := m.1.ruleId
      selector := m.2.element
      impact := m.2.impact
      issue := m.2.issue
      wcagCriterion := m.2.wcagCriterion : RawViolation }) ++
  (mr.falsePositives.map fun fp =>
    { ruleId := (getCandidateRuleIds fp).headD "unknown"
      selector := fp.element
      impact := fp.impact
      issue := fp.issue
      wcagCriterion := fp.wcagCriterion : RawViolation })

/-! ## ConfusionScorer (`computePRF` of score.ts) -/

/-- `computePRF`: precision, recall and F1 from a confusion triple. -/
def computePRF (tp fp fn : Nat) : ℚ × ℚ × ℚ :=
  if tp = 0 ∧ fp = 0 ∧ fn = 0 then (1, 1, 1)
  else
    let precisionVal : ℚ :=
      if 0 < tp + fp then (tp : ℚ) / ((tp : ℚ) + fp) else 0
    let recallVal : ℚ :=
      if 0 < tp + fn then (tp : ℚ) / ((tp : ℚ) + fn) else 0
    let f1Val : ℚ :=
      if 0 < precisionVal + recallVal then
        2 * precisionVal * recallVal / (precisionVal + recallVal)
      else 0
    (precisionVal, recallVal, f1Val)

/-! ## Mean and standard deviation (score.ts) -/

/-- `mean` of score.ts (`0` on the empty array). -/
def mean (l : List ℚ) : ℚ :=
  if l.length = 0 then 0 else l.sum / l.length

/-- The population variance `Σ (v − mean)² / N` accumulated by `stddev`
before the square root (with the same `length ≤ 1 → 0` guard). -/
def stddevSq (l : List ℚ) : ℚ :=
  if l.length ≤ 1 then 0
  else ((l.map fun v => (v - mean l) ^ 2).sum) / l.length

/-- `stddev` of score.ts: `Math.sqrt` of the population variance. -/
noncomputable def stddev (l : List ℚ) : ℝ :=
  if l.length ≤ 1 then 0
  else Real.sqrt ((((l.map fun v => (v - mean l) ^ 2).sum) / l.length : ℚ))

/-! ## ExactSetMatcher (`mcpExactMatch` of score.ts) -/

/-- The matching predicate of `mcpExactMatch`: rule id equal, the
actual selector contains the expected pattern, impact equal. -/
def mcpPred (ev : ExpectedViolation) (a : RawViolation) : Bool :=
  decide (a.ruleId = ev.ruleId) &&
    containsL a.selector.data ev.selectorPattern.data &&
    decide (a.impact = ev.impact)

/-- `remaining.findIndex(p)` followed by `remaining.splice(idx, 1)`:
the first element satisfying `p` together with the list without it. -/
def removeFirst (p : α → Bool) : List α → Option (α × List α)
  | [] => none
  | x :: rest =>
    if p x then some (x, rest)
    else (removeFirst p rest).map fun q => (q.1, x :: q.2)

/-- The loop of `mcpExactMatch`: returns `(tp, fn, remaining)`. -/
def mcpGo : List ExpectedViolation → List RawViolation →
    Nat × Nat × List RawViolation
  | [], remaining => (0, 0, remaining)
  | ev :: rest, remaining =>
    match removeFirst (mcpPred ev) remaining with
    | some q =>
      ((mcpGo rest q.2).1 + 1, (mcpGo rest q.2).2.1, (mcpGo rest q.2).2.2)
    | none =>
      ((mcpGo rest remaining).1, (mcpGo rest remaining).2.1 + 1,
        (mcpGo rest remaining).2.2)

/-- `mcpExactMatch` of score.ts: `(tp, fp, fn)` with `fp` the leftover
actual defects. -/
def mcpExactMatch (actual : List RawViolation)
    (expected : List ExpectedViolation) : Nat × Nat × Nat :=
  let r := mcpGo expected actual
  (r.1, r.2.2.length, r.2.1)

/-! ## TrialAggregator (per-case scoring loop of score.ts) -/

/-- One external trial as read from the results file: the error tag,
the raw violations and the duration (`CaseRunResult`). -/
structure ClaudeRun where
  error : Bool
  raw : List RawViolation
  durationMs : ℚ
deriving Repr, DecidableEq

/-- Reconstruction of a `ClaudeViolation` from raw data
(`run.raw.map(...)` in score.ts). -/
def rawToClaudeViolation (r : RawViolation) : ClaudeViolation :=
  { element := r.selector
    issue := r.issue
    wcagCriterion := r.wcagCriterion
    impact := r.impact }

/-- One per-trial score row pushed onto `claudeRunScores`. -/
structure RunScore where
  tp : Nat
  fp : Nat
  fn : Nat
  precision : ℚ
  «recall» : ℚ
  f1 : ℚ
  durationMs : ℚ
deriving Repr, DecidableEq

/-- The body of the per-run loop of score.ts: an errored run is scored
as `tp=0, fp=0, fn=|expected|` with zero precision/recall/F1; otherwise
the run is fuzzy-matched and scored with `computePRF`. -/
def scoreClaudeRun (expected : List ExpectedViolation) (run : ClaudeRun) :
    RunScore :=
  if run.error then
    { tp := 0, fp := 0, fn := expected.length
      precision := 0, «recall» := 0, f1 := 0
      durationMs := run.durationMs }
  else
    let mr := matchClaudeViolations (run.raw.map rawToClaudeViolation) expected
    let prf := computePRF mr.tp mr.fp mr.fn
    { tp := mr.tp, fp := mr.fp, fn := mr.fn
      precision := prf.1, «recall» := prf.2.1, f1 := prf.2.2
      durationMs := run.durationMs }

/-- `claudeRunScores` for one case: every trial is scored, none is
dropped. -/
def claudeRunScores (expected : List ExpectedViolation)
    (runs : List ClaudeRun) : List RunScore :=
  runs.map (scoreClaudeRun expected)

/-- `claudeMean` for one case (means over all trials, errored ones
included). -/
def claudeMeanF1 (expected : List ExpectedViolation)
    (runs : List ClaudeRun) : ℚ :=
  mean ((claudeRunScores expected runs).map RunScore.f1)

/-- `claudeStddev.f1` for one case. -/
noncomputable def claudeStddevF1 (expected : List ExpectedViolation)
    (runs : List ClaudeRun) : ℝ :=
  stddev ((claudeRunScores expected runs).map RunScore.f1)

/-- The `CaseScore.claude.mean` record of types.ts: per-trial means of
precision, recall, F1 and duration. -/
structure ClaudeMeanStats where
  precision : ℚ
  «recall» : ℚ
  f1 : ℚ
  durationMs : ℚ
deriving Repr, DecidableEq

/-- The `CaseScore.claude.stddev` record of types.ts: it has exactly
the three fields precision, recall and F1 — the source computes no
standard deviation of the duration series. -/
structure ClaudeStddevStats where
  precision : ℝ
  «recall» : ℝ
  f1 : ℝ

/-- `claudeMean` of score.ts (lines 114-119). -/
def caseClaudeMean (expected : List ExpectedViolation)
    (runs : List ClaudeRun) : ClaudeMeanStats :=
  { precision := mean ((claudeRunScores expected runs).map
      RunScore.precision)
    «recall» := mean ((claudeRunScores expected runs).map RunScore.«recall»)
    f1 := mean ((claudeRunScores expected runs).map RunScore.f1)
    durationMs := mean ((claudeRunScores expected runs).map
      RunScore.durationMs) }

/-- `claudeStddev` of score.ts (lines 121-125). -/
noncomputable def caseClaudeStddev (expected : List ExpectedViolation)
    (runs : List ClaudeRun) : ClaudeStddevStats :=
  { precision := stddev ((claudeRunScores expected runs).map
      RunScore.precision)
    «recall» := stddev ((claudeRunScores expected runs).map RunScore.«recall»)
    f1 := stddev ((claudeRunScores expected runs).map RunScore.f1) }

/-- The consistency-warning filter of score.ts:
`s.claude.runs.length > 1 && s.claude.stddev.f1 > 0.1`. -/
def caseInconsistent (expected : List ExpectedViolation)
    (runs : List ClaudeRun) : Prop :=
  1 < (claudeRunScores expected runs).length ∧
    (1 : ℝ) / 10 < claudeStddevF1 expected runs

/-! ## FixDeltaTracker (`runHybridFix` re-audit diff in types.ts and
fix aggregation in score.ts) -/

/-- The identity key `ruleId + "|" + selector`. -/
def identityKey (v : RawViolation) : String := v.ruleId ++ "|" ++ v.selector

/-- `new Set(violations.map(identityKey))` iterated in insertion
order. -/
def keySet (l : List RawViolation) : List String :=
  l.foldl (fun acc v => addUnique acc (identityKey v)) []

/-- `fixedCount`: before-keys absent from the after-keys. -/
def fixedCount (before after : List RawViolation) : Nat :=
  ((keySet before).filter fun k => decide (k ∉ keySet after)).length

/-- `regressionCount`: after-keys absent from the before-keys. -/
def regressionCount (before after : List RawViolation) : Nat :=
  ((keySet after).filter fun k => decide (k ∉ keySet before)).length

/-- One recorded fix attempt (`FixRunResult`), as used by the fix
aggregation. -/
structure FixAttempt where
  error : Bool
  fixedCount : Nat
  regressionCount : Nat
deriving Repr, DecidableEq

/-- The per-case fix-rate loop of score.ts: errored attempts are
skipped; each clean attempt contributes `fixedCount/origCount`,
`regressionCount/origCount` and their difference. -/
def fixRatesLoop (origCount : Nat) :
    List FixAttempt → List ℚ × List ℚ × List ℚ
  | [] => ([], [], [])
  | a :: rest =>
    let r := fixRatesLoop origCount rest
    if a.error then r
    else
      ((a.fixedCount : ℚ) / origCount :: r.1,
       (a.regressionCount : ℚ) / origCount :: r.2.1,
       ((a.fixedCount : ℚ) / origCount -
         (a.regressionCount : ℚ) / origCount) :: r.2.2)

/-- The per-case fix score: a case with `origCount = 0` is skipped
(`continue`), otherwise the mean fix rate, regression rate and net
improvement over the non-errored attempts. -/
def caseFixScore (origCount : Nat) (attempts : List FixAttempt) :
    Option (ℚ × ℚ × ℚ) :=
  if origCount = 0 then none
  else
    let r := fixRatesLoop origCount attempts
    some (mean r.1, mean r.2.1, mean r.2.2)

/-! ## Helper lemmas -/

theorem elemScoreL_nil_left (l : List Char) : elemScoreL [] l = 0 := rfl

theorem elemScoreL_nil_right : ∀ l : List Char, elemScoreL l [] = 0
  | [] => rfl
  | _ :: _ => rfl

/-- The additive third tier shared by `elemScoreL` and the
specification reading of the matcher. -/
def decomposedScore (ce sp : List Char) : Nat :=
  (match tagOf ce, tagOf sp with
   | some t1, some t2 => if t1 = t2 then 3 else 0
   | _, _ => 0) +
  ((bracketTokens ce).map fun ca =>
    ((bracketTokens sp).map fun sa =>
      if ca = sa then 3
      else if attrName ca = attrName sa then 1
      else 0).sum).sum +
  (match nthIndexOf ce, nthIndexOf sp with
   | some x, some y => if x = y then 2 else 0
   | _, _ => 0)

/-- The element matcher as the specification words it: compare the
lowercased, trimmed strings; equality scores 10, mutual containment
(as `List.IsInfix`, in either direction) scores 7, otherwise the
tag/attribute/nth bonuses accumulate.  There is no empty-input guard
here; this is the term the code is compared against. -/
def elementMatchTiers (a b : String) : Nat :=
  let ce := normL a.data
  let sp := normL b.data
  if ce = sp then 10
  else if sp <:+: ce ∨ ce <:+: sp then 7
  else decomposedScore ce sp

theorem elemScoreL_eq_tiers (x y : List Char) (hx : x ≠ []) (hy : y ≠ []) :
    elemScoreL x y =
      (if normL x = normL y then 10
       else if normL y <:+: normL x ∨ normL x <:+: normL y then 7
       else decomposedScore (normL x) (normL y)) := by
  have hx' : x.isEmpty = false := by
    cases x with
    | nil => exact absurd rfl hx
    | cons c cs => rfl
  have hy' : y.isEmpty = false := by
    cases y with
    | nil => exact absurd rfl hy
    | cons c cs => rfl
  rw [elemScoreL]
  rw [hx', hy']
  simp only [Bool.or_self, Bool.false_eq_true, if_false]
  by_cases h1 : normL x = normL y
  · rw [if_pos h1, if_pos h1]
  · rw [if_neg h1, if_neg h1]
    by_cases h2 : normL y <:+: normL x ∨ normL x <:+: normL y
    · have hb : (containsL (normL x) (normL y) ||
          containsL (normL y) (normL x)) = true := by
        rcases h2 with h | h
        · exact Bool.or_eq_true_iff.mpr (Or.inl ((containsL_iff _ _).mpr h))
        · exact Bool.or_eq_true_iff.mpr (Or.inr ((containsL_iff _ _).mpr h))
      rw [hb, if_pos rfl, if_pos h2]
    · have hb : (containsL (normL x) (normL y) ||
          containsL (normL y) (normL x)) = false :=
        Bool.eq_false_iff.mpr fun h =>
          h2 (Or.imp (containsL_iff _ _).mp (containsL_iff _ _).mp
            (Bool.or_eq_true_iff.mp h))
      rw [hb, if_neg h2]
      simp only [Bool.false_eq_true, if_false]
      rfl

theorem mem_addUnique (acc : List String) (x y : String) :
    y ∈ addUnique acc x ↔ y ∈ acc ∨ y = x := by
  by_cases h : x ∈ acc
  · rw [addUnique, if_pos h]
    constructor
    · exact Or.inl
    · rintro (hy | rfl)
      · exact hy
      · exact h
  · rw [addUnique, if_neg h]
    simp

theorem nodup_addUnique (acc : List String) (x : String) (h : acc.Nodup) :
    (addUnique acc x).Nodup := by
  by_cases hx : x ∈ acc
  · rw [addUnique, if_pos hx]; exact h
  · rw [addUnique, if_neg hx]
    simp [List.nodup_append, h, hx]

theorem mem_foldl_addUnique (key : RawViolation → String)
    (l : List RawViolation) (acc : List String) (x : String) :
    x ∈ l.foldl (fun a v => addUnique a (key v)) acc ↔
      x ∈ acc ∨ x ∈ l.map key := by
  induction l generalizing acc with
  | nil => simp
  | cons v vs ih =>
    rw [List.foldl_cons, ih, mem_addUnique]
    simp only [List.map_cons, List.mem_cons]
    tauto

theorem nodup_foldl_addUnique (key : RawViolation → String)
    (l : List RawViolation) (acc : List String) (h : acc.Nodup) :
    (l.foldl (fun a v => addUnique a (key v)) acc).Nodup := by
  induction l generalizing acc with
  | nil => exact h
  | cons v vs ih => exact ih _ (nodup_addUnique _ _ h)

theorem keySet_mem (l : List RawViolation) (x : String) :
    x ∈ keySet l ↔ x ∈ l.map identityKey := by
  rw [keySet, mem_foldl_addUnique]
  simp

theorem keySet_nodup (l : List RawViolation) : (keySet l).Nodup :=
  nodup_foldl_addUnique _ _ _ List.nodup_nil

theorem keySet_toFinset (l : List RawViolation) :
    (keySet l).toFinset = (l.map identityKey).toFinset :=
  Finset.ext fun x => by simp [List.mem_toFinset, keySet_mem]

/-- The number of distinct keys of `before` that are not keys of
`after`, counted by the code's filter over the key set, equals the
cardinality of the finite-set difference. -/
theorem keyDiffCount_eq_card (before after : List RawViolation) :
    ((keySet before).filter fun k => decide (k ∉ keySet after)).length =
      ((before.map identityKey).toFinset \
        (after.map identityKey).toFinset).card := by
  have hnd : ((keySet before).filter
      fun k => decide (k ∉ keySet after)).Nodup :=
    (keySet_nodup before).filter _
  rw [← List.toFinset_card_of_nodup hnd, List.toFinset_filter,
    keySet_toFinset, Finset.sdiff_eq_filter]
  congr 1
  apply Finset.filter_congr
  intro k hk
  simp [keySet_mem]

/-- Eligibility of an indexed expected defect for a reported defect:
its index has not been consumed and its rule id is a candidate. -/
def eligiblePair (cands : List String) (already : List Nat)
    (p : Nat × ExpectedViolation) : Prop :=
  p.1 ∉ already ∧ p.2.ruleId ∈ cands

/-- Invariant of the best-so-far accumulator of `pickLoop` relative to
the list `P` of already inspected (index, expected defect) pairs: a
`none` accumulator means no inspected eligible pair has positive
score; a `some j` accumulator records an inspected eligible pair of
maximal positive score whose index is least among the inspected
maximisers. -/
def accSpec (cv : ClaudeViolation) (cands : List String)
    (already : List Nat) (P : List (Nat × ExpectedViolation)) :
    Option Nat × Nat → Prop
  | (none, s) =>
      s = 0 ∧ ∀ p ∈ P, eligiblePair cands already p → totalScoreOf cv p.2 = 0
  | (some j, s) =>
      ∃ ev, (j, ev) ∈ P ∧ eligiblePair cands already (j, ev) ∧
        s = totalScoreOf cv ev ∧ 0 < s ∧
        (∀ p ∈ P, eligiblePair cands already p → totalScoreOf cv p.2 ≤ s) ∧
        (∀ p ∈ P, eligiblePair cands already p →
          totalScoreOf cv p.2 = s → j ≤ p.1)

theorem accSpec_extend_inelig {cv : ClaudeViolation} {cands : List String}
    {already : List Nat} {P : List (Nat × ExpectedViolation)}
    {i : Nat} {ev : ExpectedViolation} {best : Option Nat × Nat}
    (hne : ¬ eligiblePair cands already (i, ev))
    (hacc : accSpec cv cands already P best) :
    accSpec cv cands already (P ++ [(i, ev)]) best := by
  obtain ⟨b, s⟩ := best
  cases b with
  | none =>
    obtain ⟨hs, hall⟩ := hacc
    refine ⟨hs, fun p hp he => ?_⟩
    rcases List.mem_append.mp hp with h | h
    · exact hall p h he
    · rw [List.mem_singleton] at h
      subst h
      exact absurd he hne
  | some j =>
    obtain ⟨ev₀, hmem, helig, hs, hpos, hmax, hfirst⟩ := hacc
    refine ⟨ev₀, List.mem_append_left _ hmem, helig, hs, hpos,
      fun p hp he => ?_, fun p hp he hsc => ?_⟩
    · rcases List.mem_append.mp hp with h | h
      · exact hmax p h he
      · rw [List.mem_singleton] at h
        subst h
        exact absurd he hne
    · rcases List.mem_append.mp hp with h | h
      · exact hfirst p h he hsc
      · rw [List.mem_singleton] at h
        subst h
        exact absurd he hne

theorem accSpec_step_elig {cv : ClaudeViolation} {cands : List String}
    {already : List Nat} {P : List (Nat × ExpectedViolation)}
    {i : Nat} {ev : ExpectedViolation} {best : Option Nat × Nat}
    (hP : ∀ p ∈ P, p.1 < i)
    (helig : eligiblePair cands already (i, ev))
    (hacc : accSpec cv cands already P best) :
    accSpec cv cands already (P ++ [(i, ev)])
      (if best.2 < totalScoreOf cv ev then (some i, totalScoreOf cv ev)
       else best) := by
  obtain ⟨b, s⟩ := best
  by_cases hlt : (b, s).2 < totalScoreOf cv ev
  · rw [if_pos hlt]
    simp only at hlt
    refine ⟨ev, List.mem_append_right _ (List.mem_singleton_self _), helig,
      rfl, by omega, fun p hp he => ?_, fun p hp he hsc => ?_⟩
    · rcases List.mem_append.mp hp with h | h
      · cases b with
        | none =>
          obtain ⟨hs, hall⟩ := hacc
          have := hall p h he
          omega
        | some j =>
          obtain ⟨ev₀, _, _, _, _, hmax, _⟩ := hacc
          have := hmax p h he
          omega
      · rw [List.mem_singleton] at h
        subst h
        exact le_refl _
    · rcases List.mem_append.mp hp with h | h
      · cases b with
        | none =>
          obtain ⟨hs, hall⟩ := hacc
          have := hall p h he
          omega
        | some j =>
          obtain ⟨ev₀, _, _, _, _, hmax, _⟩ := hacc
          have := hmax p h he
          omega
      · rw [List.mem_singleton] at h
        subst h
        exact le_refl _
  · rw [if_neg hlt]
    simp only at hlt
    cases b with
    | none =>
      obtain ⟨hs, hall⟩ := hacc
      refine ⟨hs, fun p hp he => ?_⟩
      rcases List.mem_append.mp hp with h | h
      · exact hall p h he
      · rw [List.mem_singleton] at h
        subst h
        show totalScoreOf cv ev = 0
        omega
    | some j =>
      obtain ⟨ev₀, hmem, helig₀, hs, hpos, hmax, hfirst⟩ := hacc
      refine ⟨ev₀, List.mem_append_left _ hmem, helig₀, hs, hpos,
        fun p hp he => ?_, fun p hp he hsc => ?_⟩
      · rcases List.mem_append.mp hp with h | h
        · exact hmax p h he
        · rw [List.mem_singleton] at h
          subst h
          show totalScoreOf cv ev ≤ s
          omega
      · rcases List.mem_append.mp hp with h | h
        · exact hfirst p h he hsc
        · rw [List.mem_singleton] at h
          subst h
          exact Nat.le_of_lt (hP _ hmem)

theorem accSpec_step {cv : ClaudeViolation} {cands : List String}
    {already : List Nat} {P : List (Nat × ExpectedViolation)}
    {i : Nat} {ev : ExpectedViolation} {best : Option Nat × Nat}
    (hP : ∀ p ∈ P, p.1 < i)
    (hacc : accSpec cv cands already P best) :
    accSpec cv cands already (P ++ [(i, ev)])
      (if i ∈ already then best
       else if ev.ruleId ∈ cands then
         if best.2 < totalScoreOf cv ev then (some i, totalScoreOf cv ev)
         else best
       else best) := by
  by_cases h1 : i ∈ already
  · rw [if_pos h1]
    exact accSpec_extend_inelig (fun he => he.1 h1) hacc
  · rw [if_neg h1]
    by_cases h2 : ev.ruleId ∈ cands
    · rw [if_pos h2]
      exact accSpec_step_elig hP ⟨h1, h2⟩ hacc
    · rw [if_neg h2]
      exact accSpec_extend_inelig (fun he => h2 he.2) hacc

theorem pickLoop_spec (cv : ClaudeViolation) (cands : List String)
    (already : List Nat) (l : List ExpectedViolation) :
    ∀ (i : Nat) (best : Option Nat × Nat)
      (P : List (Nat × ExpectedViolation)),
      (∀ p ∈ P, p.1 < i) →
      accSpec cv cands already P best →
      accSpec cv cands already (P ++ List.enumFrom i l)
        (pickLoop cv cands already i l best) := by
  induction l with
  | nil =>
    intro i best P hP hacc
    simpa [pickLoop] using hacc
  | cons ev rest ih =>
    intro i best P hP hacc
    rw [pickLoop]
    have hstep := @accSpec_step cv cands already P i ev best hP hacc
    have hP' : ∀ p ∈ P ++ [(i, ev)], p.1 < i + 1 := by
      intro p hp
      rcases List.mem_append.mp hp with h | h
      · exact Nat.lt_succ_of_lt (hP p h)
      · rw [List.mem_singleton] at h
        subst h
        exact Nat.lt_succ_self i
    have h := ih (i + 1) _ (P ++ [(i, ev)]) hP' hstep
    have henum : List.enumFrom i (ev :: rest) =
        (i, ev) :: List.enumFrom (i + 1) rest := rfl
    rw [henum]
    simpa [List.append_assoc] using h

/-- The accumulator invariant, instantiated at the start of the loop:
it characterises the final value of `pickLoop` over `expected.enum`. -/
theorem pickBest_acc (cv : ClaudeViolation) (cands : List String)
    (already : List Nat) (expected : List ExpectedViolation) :
    accSpec cv cands already expected.enum
      (pickLoop cv cands already 0 expected ((none : Option Nat), 0)) := by
  have h := pickLoop_spec cv cands already expected 0
    ((none : Option Nat), 0) []
    (by intro p hp; exact absurd hp (List.not_mem_nil p))
    ⟨rfl, by intro p hp; exact absurd hp (List.not_mem_nil p)⟩
  simpa [List.enum] using h

/-- If the loop selects index `j`, then `j` is unconsumed and
in range. -/
theorem pickBest_some_mem {cv : ClaudeViolation} {cands : List String}
    {already : List Nat} {expected : List ExpectedViolation} {j : Nat}
    (h : pickBest cv cands already expected = some j) :
    j ∉ already ∧ j < expected.length := by
  have hs := pickBest_acc cv cands already expected
  rw [pickBest] at h
  rcases hres : pickLoop cv cands already 0 expected
    ((none : Option Nat), 0) with ⟨b, s⟩
  rw [hres] at hs h
  simp only at h
  subst h
  obtain ⟨ev, hmem, helig, -⟩ := hs
  refine ⟨helig.1, ?_⟩
  have := List.mem_enum_iff_getElem?.mp hmem
  simp only at this
  exact (List.getElem?_eq_some.mp this).1

theorem matchFold_invariant (expected : List ExpectedViolation) :
    ∀ (claude : List ClaudeViolation) (st : MatchState),
      st.alreadyMatched.Nodup →
      (∀ i ∈ st.alreadyMatched, i < expected.length) →
      st.matchedIdx.map Prod.fst = st.alreadyMatched →
      (claude.foldl (matchStep expected) st).alreadyMatched.Nodup ∧
      (∀ i ∈ (claude.foldl (matchStep expected) st).alreadyMatched,
        i < expected.length) ∧
      (claude.foldl (matchStep expected) st).matchedIdx.map Prod.fst =
        (claude.foldl (matchStep expected) st).alreadyMatched ∧
      (claude.foldl (matchStep expected) st).matchedIdx.length +
          (claude.foldl (matchStep expected) st).falsePositives.length =
        st.matchedIdx.length + st.falsePositives.length + claude.length ∧
      ∃ s, (claude.foldl (matchStep expected) st).matchedIdx.map Prod.snd =
          st.matchedIdx.map Prod.snd ++ s ∧ s.Sublist claude := by
  intro claude
  induction claude with
  | nil =>
    intro st h1 h2 h3
    exact ⟨h1, h2, h3, by simp, [], by simp, List.nil_sublist _⟩
  | cons cv rest ih =>
    intro st h1 h2 h3
    rw [List.foldl_cons]
    rcases hpb : pickBest cv (getCandidateRuleIds cv)
      st.alreadyMatched expected with _ | j
    · have hstep : matchStep expected st cv =
          { st with falsePositives := st.falsePositives ++ [cv] } := by
        rw [matchStep, hpb]
      rw [hstep]
      obtain ⟨a, b, c, d, s, e, f⟩ :=
        ih { st with falsePositives := st.falsePositives ++ [cv] } h1 h2 h3
      refine ⟨a, b, c, ?_, s, e, f.cons cv⟩
      simp only [List.length_append, List.length_cons, List.length_nil]
        at d ⊢
      omega
    · have hj := pickBest_some_mem hpb
      have hstep : matchStep expected st cv =
          ⟨st.alreadyMatched ++ [j], st.matchedIdx ++ [(j, cv)],
            st.falsePositives⟩ := by
        rw [matchStep, hpb]
      rw [hstep]
      have h1' : (st.alreadyMatched ++ [j]).Nodup := by
        simp [List.nodup_append, h1, hj.1]
      have h2' : ∀ i ∈ st.alreadyMatched ++ [j], i < expected.length := by
        intro i hi
        rcases List.mem_append.mp hi with h | h
        · exact h2 i h
        · rw [List.mem_singleton] at h
          subst h
          exact hj.2
      have h3' : (st.matchedIdx ++ [(j, cv)]).map Prod.fst =
          st.alreadyMatched ++ [j] := by
        rw [List.map_append, h3]
        rfl
      obtain ⟨a, b, c, d, s, e, f⟩ :=
        ih ⟨st.alreadyMatched ++ [j], st.matchedIdx ++ [(j, cv)],
          st.falsePositives⟩ h1' h2' h3'
      refine ⟨a, b, c, ?_, cv :: s, ?_, f.cons₂ cv⟩
      · simp only [List.length_append, List.length_cons, List.length_nil]
          at d ⊢
        omega
      · rw [e, List.map_append]
        simp

theorem countP_range_mem (already : List Nat) (n : Nat)
    (h1 : already.Nodup) (h2 : ∀ i ∈ already, i < n) :
    List.countP (fun i => decide (i ∈ already)) (List.range n) =
      already.length := by
  rw [List.countP_eq_length_filter]
  have hperm : ((List.range n).filter
      fun i => decide (i ∈ already)).Perm already := by
    apply (List.perm_ext_iff_of_nodup ((List.nodup_range _).filter _) h1).mpr
    intro x
    simp only [List.mem_filter, List.mem_range, decide_eq_true_eq]
    exact ⟨fun h => h.2, fun h => ⟨h2 x h, h⟩⟩
  exact hperm.length_eq

theorem nodup_bounded_length_le (already : List Nat) (n : Nat)
    (h1 : already.Nodup) (h2 : ∀ i ∈ already, i < n) :
    already.length ≤ n := by
  rw [← countP_range_mem already n h1 h2]
  calc List.countP (fun i => decide (i ∈ already)) (List.range n)
      ≤ (List.range n).length := List.countP_le_length _
    _ = n := List.length_range n

theorem missed_length (expected : List ExpectedViolation)
    (already : List Nat) (h1 : already.Nodup)
    (h2 : ∀ i ∈ already, i < expected.length) :
    (expected.enum.filter fun p => decide (p.1 ∉ already)).length =
      expected.length - already.length := by
  rw [← List.countP_eq_length_filter]
  have hmapped : List.countP (fun p : Nat × ExpectedViolation =>
        decide (p.1 ∉ already)) expected.enum =
      List.countP (fun i => decide (i ∉ already))
        (expected.enum.map Prod.fst) := by
    rw [List.countP_map]
    rfl
  rw [hmapped, List.enum_map_fst]
  have hsplit := List.length_eq_countP_add_countP
    (fun i => decide (i ∈ already)) (List.range expected.length)
  have hcount := countP_range_mem already expected.length h1 h2
  have hcongr : List.countP (fun i => decide (i ∉ already))
        (List.range expected.length) =
      List.countP (fun i =>
        decide ¬(decide (i ∈ already) = true)) (List.range expected.length) := by
    apply List.countP_congr
    intro i hi
    simp
  rw [hcongr]
  rw [List.length_range] at hsplit
  omega

theorem removeFirst_length {α : Type} {p : α → Bool} :
    ∀ {l : List α} {a : α} {l' : List α},
      removeFirst p l = some (a, l') → l'.length + 1 = l.length := by
  intro l
  induction l with
  | nil =>
    intro a l' h
    simp [removeFirst] at h
  | cons x rest ih =>
    intro a l' h
    rw [removeFirst] at h
    by_cases hx : p x
    · rw [if_pos hx] at h
      obtain ⟨rfl, rfl⟩ := Prod.mk.injEq .. ▸ Option.some.inj h
      rfl
    · rw [if_neg hx] at h
      rcases hr : removeFirst p rest with _ | q
      · rw [hr] at h
        simp at h
      · rw [hr] at h
        have h2 := Option.some.inj h
        have hl : l' = x :: q.2 := (congrArg Prod.snd h2).symm
        subst hl
        have := ih hr
        simp only [List.length_cons]
        omega

theorem mcpGo_cons_some {ev : ExpectedViolation}
    {rest : List ExpectedViolation} {remaining : List RawViolation}
    {q : RawViolation × List RawViolation}
    (h : removeFirst (mcpPred ev) remaining = some q) :
    mcpGo (ev :: rest) remaining =
      ((mcpGo rest q.2).1 + 1, (mcpGo rest q.2).2.1,
        (mcpGo rest q.2).2.2) := by
  rw [mcpGo, h]

theorem mcpGo_cons_none {ev : ExpectedViolation}
    {rest : List ExpectedViolation} {remaining : List RawViolation}
    (h : removeFirst (mcpPred ev) remaining = none) :
    mcpGo (ev :: rest) remaining =
      ((mcpGo rest remaining).1, (mcpGo rest remaining).2.1 + 1,
        (mcpGo rest remaining).2.2) := by
  rw [mcpGo, h]

theorem mcpGo_tp_fn (expected : List ExpectedViolation) :
    ∀ remaining : List RawViolation,
      (mcpGo expected remaining).1 + (mcpGo expected remaining).2.1 =
        expected.length := by
  induction expected with
  | nil => intro remaining; simp [mcpGo]
  | cons ev rest ih =>
    intro remaining
    rcases h : removeFirst (mcpPred ev) remaining with _ | q
    · rw [mcpGo_cons_none h]
      have := ih remaining
      simp only [List.length_cons]
      omega
    · rw [mcpGo_cons_some h]
      have := ih q.2
      simp only [List.length_cons]
      omega

theorem mcpGo_tp_remaining (expected : List ExpectedViolation) :
    ∀ remaining : List RawViolation,
      (mcpGo expected remaining).1 +
        (mcpGo expected remaining).2.2.length = remaining.length := by
  induction expected with
  | nil => intro remaining; simp [mcpGo]
  | cons ev rest ih =>
    intro remaining
    rcases h : removeFirst (mcpPred ev) remaining with _ | q
    · rw [mcpGo_cons_none h]
      exact ih remaining
    · rw [mcpGo_cons_some h]
      show (mcpGo rest q.2).1 + 1 + (mcpGo rest q.2).2.2.length =
        remaining.length
      have hlen := removeFirst_length h
      have := ih q.2
      omega

theorem pickLoop_nil_cands (cv : ClaudeViolation) (already : List Nat) :
    ∀ (l : List ExpectedViolation) (i : Nat) (best : Option Nat × Nat),
      pickLoop cv [] already i l best = best := by
  intro l
  induction l with
  | nil => intro i best; rfl
  | cons ev rest ih =>
    intro i best
    rw [pickLoop]
    have h2 : (if i ∈ already then best
        else if ev.ruleId ∈ ([] : List String) then
          if best.2 < totalScoreOf cv ev then (some i, totalScoreOf cv ev)
          else best
        else best) = best := by
      split_ifs with ha hb
      all_goals first
        | rfl
        | exact absurd hb (List.not_mem_nil _)
    rw [h2]
    exact ih (i + 1) best

theorem removeFirst_some {α : Type} {p : α → Bool} :
    ∀ {l : List α} {x : α} {l' : List α},
      removeFirst p l = some (x, l') →
      p x = true ∧ ∃ pre post, l = pre ++ x :: post ∧ l' = pre ++ post ∧
        ∀ y ∈ pre, p y = false := by
  intro l
  induction l with
  | nil =>
    intro x l' h
    simp [removeFirst] at h
  | cons c rest ih =>
    intro x l' h
    rw [removeFirst] at h
    by_cases hc : p c
    · rw [if_pos hc] at h
      have h2 := Option.some.inj h
      have hx : c = x := congrArg Prod.fst h2
      have hl : rest = l' := congrArg Prod.snd h2
      subst hx
      subst hl
      exact ⟨hc, [], rest, rfl, rfl,
        fun y hy => absurd hy (List.not_mem_nil y)⟩
    · rw [if_neg hc] at h
      rcases hr : removeFirst p rest with _ | q
      · rw [hr] at h
        simp at h
      · rw [hr] at h
        obtain ⟨qa, qb⟩ := q
        have h2 := Option.some.inj h
        have hx : qa = x := congrArg Prod.fst h2
        have hl : c :: qb = l' := congrArg Prod.snd h2
        subst hx
        obtain ⟨hpx, pre, post, hsplit, hrem, hpre⟩ := ih hr
        refine ⟨hpx, c :: pre, post, ?_, ?_, ?_⟩
        · rw [List.cons_append, ← hsplit]
        · rw [← hl, hrem]
          rfl
        · intro y hy
          rcases List.mem_cons.mp hy with rfl | hy2
          · exact Bool.eq_false_iff.mpr hc
          · exact hpre y hy2

theorem removeFirst_none {α : Type} {p : α → Bool} :
    ∀ {l : List α}, removeFirst p l = none ↔ ∀ y ∈ l, p y = false := by
  intro l
  induction l with
  | nil => simp [removeFirst]
  | cons c rest ih =>
    rw [removeFirst]
    by_cases hc : p c
    · rw [if_pos hc]
      exact iff_of_false (by simp)
        (fun h => Bool.eq_false_iff.mp (h c (List.mem_cons_self c rest)) hc)
    · rw [if_neg hc]
      rw [Option.map_eq_none', ih]
      simp only [List.forall_mem_cons]
      constructor
      · intro h
        exact ⟨Bool.eq_false_iff.mpr hc, h⟩
      · intro h
        exact h.2

/-- Characterisation of the fallible resolver: it throws exactly when
the normalized criterion is truthy, absent from the table, and an
`Object.prototype` property name; on every other input it returns the
candidate list of the total model. -/
theorem getCandidateRuleIdsE_spec (cv : ClaudeViolation) :
    getCandidateRuleIdsE cv =
      (if normCriterion cv.wcagCriterion ≠ "" ∧
          wcagToRules.lookup (normCriterion cv.wcagCriterion) = none ∧
          normCriterion cv.wcagCriterion ∈ objectProtoProps then
        Except.error ()
      else Except.ok (getCandidateRuleIds cv)) := by
  rw [getCandidateRuleIdsE, getCandidateRuleIds, wcagBracketAccess]
  by_cases hc : normCriterion cv.wcagCriterion ≠ ""
  · rcases hlk : wcagToRules.lookup (normCriterion cv.wcagCriterion)
      with _ | rules
    · by_cases hp : normCriterion cv.wcagCriterion ∈ objectProtoProps
      · simp [hc, hlk, hp]
      · simp [hc, hlk, hp]
    · simp [hc, hlk]
  · rw [not_ne_iff] at hc
    simp [hc]

/-- On every input where the source returns, the total resolver model
computes the same candidate list as the fallible one. -/
theorem getCandidateRuleIdsE_ok_eq {cv : ClaudeViolation}
    {l : List String} (h : getCandidateRuleIdsE cv = Except.ok l) :
    getCandidateRuleIds cv = l := by
  rw [getCandidateRuleIdsE_spec] at h
  split_ifs at h with hcond
  exact Except.ok.inj h

theorem varQ_nonneg (l : List ℚ) :
    (0 : ℚ) ≤ (l.map fun v => (v - mean l) ^ 2).sum / l.length := by
  apply div_nonneg
  · apply List.sum_nonneg
    intro x hx
    obtain ⟨v, _, rfl⟩ := List.mem_map.mp hx
    positivity
  · positivity

/-- The comparison `stddev l > 0.1` made by the consistency warning is
equivalent to comparing the population variance against `1/100`. -/
theorem one_tenth_lt_stddev_iff (l : List ℚ) (h : 1 < l.length) :
    (1 : ℝ) / 10 < stddev l ↔ (1 : ℚ) / 100 < stddevSq l := by
  have hn : ¬ l.length ≤ 1 := by omega
  rw [stddev, if_neg hn, stddevSq, if_neg hn]
  constructor
  · intro hsd
    have h2 := (Real.lt_sqrt (by positivity)).mp hsd
    have h3 : (((1 : ℚ) / 100 : ℚ) : ℝ) <
        (((l.map fun v => (v - mean l) ^ 2).sum / l.length : ℚ) : ℝ) := by
      calc (((1 : ℚ) / 100 : ℚ) : ℝ) = ((1 : ℝ) / 10) ^ 2 := by norm_num
        _ < _ := h2
    exact_mod_cast h3
  · intro hv
    apply (Real.lt_sqrt (by positivity)).mpr
    calc ((1 : ℝ) / 10) ^ 2 = (((1 : ℚ) / 100 : ℚ) : ℝ) := by norm_num
      _ < _ := by exact_mod_cast hv

/-! ## Sample defects for concrete scenarios -/

/-- A reported free-text defect whose criterion and issue text resolve
to the `img-alt` rule. -/
def cvImgSample : ClaudeViolation :=
  { element := "img", issue := "image missing alt"
    wcagCriterion := "1.1.1", impact := "critical" }

/-- The matching expected defect. -/
def evImgSample : ExpectedViolation :=
  { ruleId := "text-alternatives/img-alt", selectorPattern := "img"
    impact := "critical" }

/-- The ordered impact scale `critical > serious > moderate > minor`. -/
def impactScale : List String := ["critical", "serious", "moderate", "minor"]

/-- Adjacency on the ordered impact scale: the positions differ by
exactly one. -/
def scaleAdjacent (a b : String) : Prop :=
  Nat.dist (impactScale.indexOf a) (impactScale.indexOf b) = 1

instance (a b : String) : Decidable (scaleAdjacent a b) :=
  inferInstanceAs (Decidable
    (Nat.dist (impactScale.indexOf a) (impactScale.indexOf b) = 1))

/-! ## Claim theorems -/

/-- C1: counting invariants of both matchers.  For the greedy matcher:
`tp + fn = |expected|`, `tp + fp = |reported|`, the consumed expected
indices are pairwise distinct (each expected defect is in at most one
matched pair), they are exactly the indices carried by the matched
pairs, and the reported defects of the matched pairs form a sublist of
the input (each reported defect is in at most one matched pair).  For
the exact set matcher: `tp + fn = |expected|` and
`tp + fp = |actual|`. -/
theorem claim_C1_counting_invariants (claude : List ClaudeViolation)
    (expected : List ExpectedViolation) (actual : List RawViolation) :
    (matchClaudeViolations claude expected).tp +
        (matchClaudeViolations claude expected).fn = expected.length ∧
    (matchClaudeViolations claude expected).tp +
        (matchClaudeViolations claude expected).fp = claude.length ∧
    (matchRun claude expected).alreadyMatched.Nodup ∧
    (matchRun claude expected).matchedIdx.map Prod.fst =
      (matchRun claude expected).alreadyMatched ∧
    ((matchRun claude expected).matchedIdx.map Prod.snd).Sublist claude ∧
    (mcpExactMatch actual expected).1 + (mcpExactMatch actual expected).2.2 =
      expected.length ∧
    (mcpExactMatch actual expected).1 + (mcpExactMatch actual expected).2.1 =
      actual.length := by
  obtain ⟨a, b, c, d, s, e, f⟩ := matchFold_invariant expected claude
    ⟨[], [], []⟩ List.nodup_nil
    (by intro i hi; exact absurd hi (List.not_mem_nil i)) rfl
  have hrun : matchRun claude expected =
      claude.foldl (matchStep expected) ⟨[], [], []⟩ := rfl
  have hmlen : (matchRun claude expected).matchedIdx.length =
      (matchRun claude expected).alreadyMatched.length := by
    rw [hrun, ← c, List.length_map]
  have htp : (matchClaudeViolations claude expected).tp =
      (matchRun claude expected).matchedIdx.length := by
    show ((matchRun claude expected).matchedIdx.map
      fun p => (expected.getD p.1 default, p.2)).length = _
    rw [List.length_map]
  have hfp : (matchClaudeViolations claude expected).fp =
      (matchRun claude expected).falsePositives.length := rfl
  have hfn : (matchClaudeViolations claude expected).fn =
      expected.length - (matchRun claude expected).alreadyMatched.length := by
    show ((expected.enum.filter fun p =>
      decide (p.1 ∉ (matchRun claude expected).alreadyMatched)).map
        Prod.snd).length = _
    rw [List.length_map]
    exact missed_length expected _ (hrun ▸ a) (hrun ▸ b)
  have hble : (matchRun claude expected).alreadyMatched.length ≤
      expected.length :=
    nodup_bounded_length_le _ _ (hrun ▸ a) (hrun ▸ b)
  refine ⟨?_, ?_, hrun ▸ a, hrun ▸ c, ?_, ?_, ?_⟩
  · rw [htp, hfn, hmlen]
    omega
  · rw [htp, hfp, hrun]
    simp only [List.length_nil, Nat.zero_add] at d
    omega
  · have hsnd : (matchRun claude expected).matchedIdx.map Prod.snd = s := by
      rw [hrun, e]
      simp
    rw [hsnd]
    exact f
  · show (mcpGo expected actual).1 + (mcpGo expected actual).2.1 = _
    exact mcpGo_tp_fn expected actual
  · show (mcpGo expected actual).1 + (mcpGo expected actual).2.2.length = _
    exact mcpGo_tp_remaining expected actual

/-- C2: the greedy assigner.  When a reported defect is matched to
index `j`, that index is unconsumed, its rule id is a candidate, its
composite score (element score plus impact bonus) is strictly
positive, maximal among the unconsumed candidate expected defects, and
`j` is the first index attaining that maximum; when no index is
selected (the reported defect becomes a false positive), every
unconsumed candidate has composite score 0.  On the four-value scale
the impact bonus is +2 on equality, +1 on adjacency, 0 otherwise.  The
reported defects are folded over in input order, and in the concrete
two-identical-reports scenario the first consumes the only expected
defect and the second becomes a false positive. -/
theorem claim_C2_greedy_selection :
    (∀ (cv : ClaudeViolation) (cands : List String) (already : List Nat)
        (expected : List ExpectedViolation) (j : Nat),
      pickBest cv cands already expected = some j →
      ∃ ev, (j, ev) ∈ expected.enum ∧ j ∉ already ∧ ev.ruleId ∈ cands ∧
        0 < totalScoreOf cv ev ∧
        (∀ p ∈ expected.enum, p.1 ∉ already → p.2.ruleId ∈ cands →
          totalScoreOf cv p.2 ≤ totalScoreOf cv ev) ∧
        (∀ p ∈ expected.enum, p.1 ∉ already → p.2.ruleId ∈ cands →
          totalScoreOf cv p.2 = totalScoreOf cv ev → j ≤ p.1)) ∧
    (∀ (cv : ClaudeViolation) (cands : List String) (already : List Nat)
        (expected : List ExpectedViolation),
      pickBest cv cands already expected = none →
      ∀ p ∈ expected.enum, p.1 ∉ already → p.2.ruleId ∈ cands →
        totalScoreOf cv p.2 = 0) ∧
    (∀ a b : String, a ∈ impactScale → b ∈ impactScale →
      impactBonus a b =
        if a = b then 2 else if scaleAdjacent a b then 1 else 0) ∧
    (∀ (expected : List ExpectedViolation) (st : MatchState)
        (cv : ClaudeViolation) (rest : List ClaudeViolation),
      (cv :: rest).foldl (matchStep expected) st =
        rest.foldl (matchStep expected) (matchStep expected st cv)) ∧
    matchClaudeViolations [cvImgSample, cvImgSample] [evImgSample] =
      { tp := 1, fp := 1, fn := 0
        matched := [(evImgSample, cvImgSample)]
        falsePositives := [cvImgSample], missed := [] } := by
  refine ⟨?_, ?_, ?_, fun _ _ _ _ => List.foldl_cons .., by decide⟩
  · intro cv cands already expected j h
    have hs := pickBest_acc cv cands already expected
    rw [pickBest] at h
    rcases hres : pickLoop cv cands already 0 expected
      ((none : Option Nat), 0) with ⟨b, s2⟩
    rw [hres] at hs h
    simp only at h
    subst h
    obtain ⟨ev, hmem, helig, hseq, hpos, hmax, hfirst⟩ := hs
    subst hseq
    refine ⟨ev, hmem, helig.1, helig.2, hpos, ?_, ?_⟩
    · intro p hp h1 h2
      exact hmax p hp ⟨h1, h2⟩
    · intro p hp h1 h2 h3
      exact hfirst p hp ⟨h1, h2⟩ h3
  · intro cv cands already expected h p hp h1 h2
    have hs := pickBest_acc cv cands already expected
    rw [pickBest] at h
    rcases hres : pickLoop cv cands already 0 expected
      ((none : Option Nat), 0) with ⟨b, s2⟩
    rw [hres] at hs h
    simp only at h
    subst h
    exact hs.2 p hp ⟨h1, h2⟩
  · intro a b ha hb
    simp only [impactScale, List.mem_cons, List.not_mem_nil, or_false]
      at ha hb
    rcases ha with rfl | rfl | rfl | rfl <;>
      rcases hb with rfl | rfl | rfl | rfl <;> decide

/-- Witness for C2: in the concrete scenario the selection theorem
applies to the first reported defect, which is matched to index 0 with
a strictly positive composite score. -/
theorem claim_C2_greedy_selection_witness :
    0 < totalScoreOf cvImgSample evImgSample := by
  obtain ⟨ev, hmem, -, -, hpos, -, -⟩ :=
    claim_C2_greedy_selection.1 cvImgSample
      (getCandidateRuleIds cvImgSample) [] [evImgSample] 0 (by decide)
  have hev : ev = evImgSample := by simpa using hmem
  exact hev ▸ hpos

/-- A free-text defect with an empty criterion and an empty issue
text: neither resolver signal fires, so its candidate set is empty. -/
def cvUnknownSample : ClaudeViolation :=
  { element := "div", issue := "", wcagCriterion := "", impact := "minor" }

/-- On the resolver's non-throwing paths, a defect with an empty
candidate list is never matched: processing it leaves the match state
unchanged except for appending it to the false positives, and in the
raw violation output it carries the rule id `"unknown"`. -/
theorem emptyCandidates_falsePositive (expected : List ExpectedViolation)
    (st : MatchState) (cv : ClaudeViolation)
    (h : getCandidateRuleIds cv = []) :
    matchStep expected st cv =
      { st with falsePositives := st.falsePositives ++ [cv] } ∧
    claudeToRawViolations [cv] expected =
      [{ ruleId := "unknown", selector := cv.element, impact := cv.impact
         issue := cv.issue, wcagCriterion := cv.wcagCriterion }] := by
  have hpb : ∀ already : List Nat,
      pickBest cv (getCandidateRuleIds cv) already expected = none := by
    intro already
    rw [h, pickBest, pickLoop_nil_cands]
  constructor
  · rw [matchStep, hpb st.alreadyMatched]
  · have hrun : matchRun [cv] expected = ⟨[], [], [cv]⟩ := by
      show matchStep expected ⟨[], [], []⟩ cv = _
      rw [matchStep]
      have := hpb ([] : List Nat)
      simp only [this]
      rfl
    have h1 : (matchClaudeViolations [cv] expected).matched = [] := by
      show ((matchRun [cv] expected).matchedIdx.map
        fun p => (expected.getD p.1 default, p.2)) = []
      rw [hrun]
      rfl
    have h2 : (matchClaudeViolations [cv] expected).falsePositives = [cv] := by
      show (matchRun [cv] expected).falsePositives = [cv]
      rw [hrun]
    show ((matchClaudeViolations [cv] expected).matched.map fun m =>
        ({ ruleId := m.1.ruleId, selector := m.2.element
           impact := m.2.impact, issue := m.2.issue
           wcagCriterion := m.2.wcagCriterion } : RawViolation)) ++
      ((matchClaudeViolations [cv] expected).falsePositives.map fun fp =>
        ({ ruleId := (getCandidateRuleIds fp).headD "unknown"
           selector := fp.element, impact := fp.impact, issue := fp.issue
           wcagCriterion := fp.wcagCriterion } : RawViolation)) = _
    rw [h1, h2]
    simp [h]

/-- A free-text defect whose criterion normalizes to `"toString"`:
both resolution signals are empty (no table entry, no keyword match on
the empty issue), yet the source crashes on it. -/
def cvProtoSample : ClaudeViolation :=
  { element := "div", issue := "", wcagCriterion := "toString"
    impact := "minor" }

/-- C5 (code bug): the specification requires an empty candidate
resolution to propagate to a false positive with rule id `"unknown"`
and "never to a crash".  On every input where the resolver returns, the
code does exactly that: if the resolver yields an empty candidate
list, the defect is appended to the false positives and reported with
rule id `"unknown"`.  But the resolver itself can throw: on
`cvProtoSample` the bracket access `WCAG_TO_RULES["toString"]` finds
the inherited, truthy, non-iterable `Object.prototype.toString`, so
`if (rules)` passes and `for (const r of rules)` throws a `TypeError`
(matching.ts lines 143-146), although the criterion is absent from the
table and no keyword pattern matches the (empty) issue text — i.e. on
an input whose candidate resolution is empty in the specification's
sense. -/
theorem claim_C5_unattributable_report_crash :
    getCandidateRuleIdsE cvProtoSample = Except.error () ∧
    (wcagToRules.lookup (normCriterion cvProtoSample.wcagCriterion)).isNone
      = true ∧
    (∀ p ∈ keywordPatterns,
      reTest p.1 (lowerL cvProtoSample.issue.data) = false) ∧
    (∀ (expected : List ExpectedViolation) (st : MatchState)
        (cv : ClaudeViolation),
      getCandidateRuleIdsE cv = Except.ok [] →
      matchStep expected st cv =
        { st with falsePositives := st.falsePositives ++ [cv] } ∧
      claudeToRawViolations [cv] expected =
        [{ ruleId := "unknown", selector := cv.element, impact := cv.impact
           issue := cv.issue, wcagCriterion := cv.wcagCriterion }]) := by
  refine ⟨rfl, by decide, by decide, ?_⟩
  intro expected st cv h
  exact emptyCandidates_falsePositive expected st cv
    (getCandidateRuleIdsE_ok_eq h)

/-- Witness for C5: the concrete unattributable defect (empty issue,
empty criterion) passes through the resolver without error, is
appended to the false positives and is reported with rule id
`"unknown"`. -/
theorem claim_C5_unattributable_report_crash_witness :
    matchStep [] ⟨[], [], []⟩ cvUnknownSample = ⟨[], [], [cvUnknownSample]⟩ ∧
    claudeToRawViolations [cvUnknownSample] [] =
      [{ ruleId := "unknown", selector := "div", impact := "minor"
         issue := "", wcagCriterion := "" }] := by
  have h := claim_C5_unattributable_report_crash.2.2.2 [] ⟨[], [], []⟩
    cvUnknownSample rfl
  exact ⟨h.1, h.2⟩

/-- Expected and actual structured defects for the C6 witness. -/
def evSelSample : ExpectedViolation :=
  { ruleId := "r1", selectorPattern := "img", impact := "critical" }

/-- An actual defect that fails the exact predicate against
`evSelSample` (impact differs). -/
def rawMissSample : RawViolation :=
  { ruleId := "r1", selector := "div img", impact := "minor"
    issue := "", wcagCriterion := "" }

/-- An actual defect that satisfies the exact predicate against
`evSelSample`. -/
def rawHitSample : RawViolation :=
  { ruleId := "r1", selector := "a img.x", impact := "critical"
    issue := "", wcagCriterion := "" }

/-- C6: the exact set matcher.  Its predicate holds iff the rule ids
are equal, the impacts are equal, and the expected selector pattern is
contained in the actual selector (that direction).  An expected defect
is a true positive iff some not-yet-consumed actual defect satisfies
the predicate; the first such defect is selected and consumed
(removed) exactly once; when none qualifies the expected defect counts
as a false negative; and with no expected defects every actual defect
is left over as a false positive. -/
theorem claim_C6_exact_set_matcher (ev : ExpectedViolation)
    (x : RawViolation) (remaining l' : List RawViolation)
    (expected : List ExpectedViolation) (actual : List RawViolation) :
    (∀ a : RawViolation, mcpPred ev a = true ↔
      a.ruleId = ev.ruleId ∧ a.impact = ev.impact ∧
        ev.selectorPattern.data <:+: a.selector.data) ∧
    (removeFirst (mcpPred ev) remaining = some (x, l') →
      mcpPred ev x = true ∧
      ∃ pre post, remaining = pre ++ x :: post ∧ l' = pre ++ post ∧
        ∀ y ∈ pre, mcpPred ev y = false) ∧
    (removeFirst (mcpPred ev) remaining = none ↔
      ∀ y ∈ remaining, mcpPred ev y = false) ∧
    (removeFirst (mcpPred ev) remaining = some (x, l') →
      mcpGo (ev :: expected) remaining =
        ((mcpGo expected l').1 + 1, (mcpGo expected l').2.1,
          (mcpGo expected l').2.2)) ∧
    (removeFirst (mcpPred ev) remaining = none →
      mcpGo (ev :: expected) remaining =
        ((mcpGo expected remaining).1, (mcpGo expected remaining).2.1 + 1,
          (mcpGo expected remaining).2.2)) ∧
    (mcpExactMatch actual []).2.1 = actual.length := by
  refine ⟨?_, removeFirst_some, removeFirst_none, ?_, ?_, rfl⟩
  · intro a
    rw [mcpPred]
    simp only [Bool.and_eq_true, decide_eq_true_eq, containsL_iff]
    tauto
  · intro h
    exact mcpGo_cons_some h
  · intro h
    exact mcpGo_cons_none h

/-- Witness for C6 on a concrete two-element actual list: the first
element misses the predicate (impact differs), the second matches, so
it is selected and consumed while the miss stays in the remaining
list. -/
theorem claim_C6_exact_set_matcher_witness :
    mcpPred evSelSample rawHitSample = true ∧
    ∃ pre post, [rawMissSample, rawHitSample] = pre ++ rawHitSample :: post ∧
      [rawMissSample] = pre ++ post ∧
      ∀ y ∈ pre, mcpPred evSelSample y = false :=
  (claim_C6_exact_set_matcher evSelSample rawHitSample
    [rawMissSample, rawHitSample] [rawMissSample] [] []).2.1 (by decide)

/-- C3: `computePRF` implements the confusion-scorer policy: the
all-zero triple scores (1,1,1); otherwise precision is `tp/(tp+fp)`
when `tp+fp > 0` and 0 when `tp+fp = 0`, recall is `tp/(tp+fn)` when
`tp+fn > 0` and 0 when `tp+fn = 0`, and F1 is `2pr/(p+r)` when
`p+r > 0` and 0 otherwise; in particular `(5,0,0) ↦ (1,1,1)` and
`(0,0,3) ↦ (0,0,0)`. -/
theorem claim_C3_confusion_scorer (tp fp fn : Nat) :
    computePRF 0 0 0 = (1, 1, 1) ∧
    (0 < tp + fp → (computePRF tp fp fn).1 = (tp : ℚ) / ((tp : ℚ) + fp)) ∧
    (tp + fp = 0 → 0 < fn → (computePRF tp fp fn).1 = 0) ∧
    (0 < tp + fn → (computePRF tp fp fn).2.1 = (tp : ℚ) / ((tp : ℚ) + fn)) ∧
    (tp + fn = 0 → 0 < fp → (computePRF tp fp fn).2.1 = 0) ∧
    (¬(tp = 0 ∧ fp = 0 ∧ fn = 0) →
      (computePRF tp fp fn).2.2 =
        (if 0 < (computePRF tp fp fn).1 + (computePRF tp fp fn).2.1 then
          2 * (computePRF tp fp fn).1 * (computePRF tp fp fn).2.1 /
            ((computePRF tp fp fn).1 + (computePRF tp fp fn).2.1)
        else 0)) ∧
    computePRF 5 0 0 = (1, 1, 1) ∧ computePRF 0 0 3 = (0, 0, 0) := by
  refine ⟨by norm_num [computePRF], ?_, ?_, ?_, ?_, ?_,
    by norm_num [computePRF], by norm_num [computePRF]⟩
  · intro h
    have hnz : ¬(tp = 0 ∧ fp = 0 ∧ fn = 0) := by
      rintro ⟨h1, h2, h3⟩; omega
    rw [computePRF, if_neg hnz]
    simp only [if_pos h]
  · intro h hfn
    have hnz : ¬(tp = 0 ∧ fp = 0 ∧ fn = 0) := by
      rintro ⟨h1, h2, h3⟩; omega
    rw [computePRF, if_neg hnz]
    simp only [if_neg (by omega : ¬ 0 < tp + fp)]
  · intro h
    have hnz : ¬(tp = 0 ∧ fp = 0 ∧ fn = 0) := by
      rintro ⟨h1, h2, h3⟩; omega
    rw [computePRF, if_neg hnz]
    simp only [if_pos h]
  · intro h hfp
    have hnz : ¬(tp = 0 ∧ fp = 0 ∧ fn = 0) := by
      rintro ⟨h1, h2, h3⟩; omega
    rw [computePRF, if_neg hnz]
    simp only [if_neg (by omega : ¬ 0 < tp + fn)]
  · intro hnz
    rw [computePRF, if_neg hnz]

/-- Witness for C3 at `(2,1,1)`: the `tp+fp > 0` branch applies and
yields precision `2/3`. -/
theorem claim_C3_confusion_scorer_witness :
    (computePRF 2 1 1).1 = (2 : ℚ) / 3 := by
  have h := (claim_C3_confusion_scorer 2 1 1).2.1 (by decide)
  rw [h]
  norm_num

/-- C10: the element matcher returns 0 whenever either raw input
string is empty — including when both are empty and therefore equal —
so the score-10 exact-equality tier is reachable only for two
non-empty inputs. -/
theorem claim_C10_empty_element_strings :
    (∀ s : String, elementMatchScore "" s = 0 ∧ elementMatchScore s "" = 0) ∧
    ∀ a b : String, elementMatchScore a b = 10 → a ≠ "" ∧ b ≠ "" := by
  have hright : ∀ s : String, elementMatchScore s "" = 0 := fun s =>
    elemScoreL_nil_right s.data
  refine ⟨fun s => ⟨rfl, hright s⟩, fun a b h => ⟨?_, ?_⟩⟩
  · rintro rfl
    rw [show elementMatchScore "" b = 0 from rfl] at h
    exact absurd h (by decide)
  · rintro rfl
    rw [hright a] at h
    exact absurd h (by decide)

/-- Witness for C10 at `("img", "img")`: the score is 10, so both
inputs are forced non-empty. -/
theorem claim_C10_empty_element_strings_witness :
    ("img" : String) ≠ "" ∧ ("img" : String) ≠ "" :=
  claim_C10_empty_element_strings.2 "img" "img" (by decide)

/-- C4 as frozen is refuted at the input pair `("", "")`: the two
strings are equal (also after trimming and lowercasing), yet the
matcher returns 0, not 10, because the empty-input guard fires before
the equality tier. -/
theorem claim_C4_counterexample :
    normL ("" : String).data = normL ("" : String).data ∧
      elementMatchScore "" "" ≠ 10 :=
  ⟨rfl, by decide⟩

/-- C4 amended: for every pair of NON-EMPTY element descriptor
strings, compared case-insensitively after trimming, the matcher
returns 10 on equality, otherwise 7 when either contains the other as
a substring, otherwise the sum of the leading-tag (+3), shared
bracketed-attribute (+3 full / +1 name-only, per pair) and identical
`nth-of-type` (+2) bonuses; the score is a natural number, hence
non-negative. -/
theorem claim_C4_element_matcher_tiers (a b : String)
    (ha : a ≠ "") (hb : b ≠ "") :
    elementMatchScore a b = elementMatchTiers a b := by
  have ha' : a.data ≠ [] := fun h => ha (String.ext h)
  have hb' : b.data ≠ [] := fun h => hb (String.ext h)
  rw [elementMatchScore, elemScoreL_eq_tiers a.data b.data ha' hb',
    elementMatchTiers]

/-- Witness for the amended C4 at `("img[alt]", "IMG ")`: the code's
score and the tier description agree (both give the containment tier,
7). -/
theorem claim_C4_element_matcher_tiers_witness :
    elementMatchScore "img[alt]" "IMG " = elementMatchTiers "img[alt]" "IMG " ∧
      elementMatchScore "img[alt]" "IMG " = 7 :=
  ⟨claim_C4_element_matcher_tiers "img[alt]" "IMG " (by decide) (by decide),
   by decide⟩

/-- C7: the fix-delta computation keys each defect by
`ruleId + "|" + selector`; `fixedCount` is the number of (distinct)
before-keys absent from the after-keys and `regressionCount` the
number of after-keys absent from the before-keys; in particular
`before=[{r1,img}], after=[]` gives `(1, 0)` and
`before=[{r1,img}], after=[{r1,img},{r2,a}]` gives `(0, 1)`. -/
theorem claim_C7_fix_delta_counts (before after : List RawViolation) :
    identityKey { ruleId := "r1", selector := "img", impact := "",
                  issue := "", wcagCriterion := "" } = "r1|img" ∧
    fixedCount before after =
      ((before.map identityKey).toFinset \
        (after.map identityKey).toFinset).card ∧
    regressionCount before after =
      ((after.map identityKey).toFinset \
        (before.map identityKey).toFinset).card ∧
    fixedCount [⟨"r1", "img", "", "", ""⟩] [] = 1 ∧
    regressionCount [⟨"r1", "img", "", "", ""⟩] [] = 0 ∧
    fixedCount [⟨"r1", "img", "", "", ""⟩]
      [⟨"r1", "img", "", "", ""⟩, ⟨"r2", "a", "", "", ""⟩] = 0 ∧
    regressionCount [⟨"r1", "img", "", "", ""⟩]
      [⟨"r1", "img", "", "", ""⟩, ⟨"r2", "a", "", "", ""⟩] = 1 := by
  refine ⟨by decide, ?_, ?_, by decide, by decide, by decide, by decide⟩
  · rw [fixedCount]
    exact keyDiffCount_eq_card before after
  · rw [regressionCount]
    exact keyDiffCount_eq_card after before

/-- C8: the two aggregation layers treat failures differently.  A
detection trial with the error tag is scored `tp=0, fp=0,
fn=|expected|` with zero precision/recall/F1, and the per-case score
list keeps one entry per trial (errored trials are averaged in, not
dropped).  The fix aggregation instead drops errored attempts from the
fix/regression-rate lists, and a case whose original violation count
is 0 is excluded from fix scoring entirely. -/
theorem claim_C8_failure_scoring :
    (∀ (expected : List ExpectedViolation) (run : ClaudeRun),
      run.error = true →
      scoreClaudeRun expected run =
        { tp := 0, fp := 0, fn := expected.length
          precision := 0, «recall» := 0, f1 := 0
          durationMs := run.durationMs }) ∧
    (∀ (expected : List ExpectedViolation) (runs : List ClaudeRun),
      (claudeRunScores expected runs).length = runs.length) ∧
    (∀ (origCount : Nat) (attempts : List FixAttempt),
      fixRatesLoop origCount attempts =
        ((attempts.filter fun a => !a.error).map
            (fun a => (a.fixedCount : ℚ) / origCount),
         (attempts.filter fun a => !a.error).map
            (fun a => (a.regressionCount : ℚ) / origCount),
         (attempts.filter fun a => !a.error).map
            (fun a => (a.fixedCount : ℚ) / origCount -
              (a.regressionCount : ℚ) / origCount))) ∧
    (∀ attempts : List FixAttempt, caseFixScore 0 attempts = none) := by
  refine ⟨?_, ?_, ?_, ?_⟩
  · intro expected run h
    rw [scoreClaudeRun, if_pos h]
  · intro expected runs
    exact List.length_map _ _
  · intro origCount attempts
    induction attempts with
    | nil => rfl
    | cons a rest ih =>
      rw [fixRatesLoop, ih]
      cases h : a.error with
      | true => simp [h]
      | false => simp [h]
  · intro attempts
    rw [caseFixScore, if_pos rfl]

/-- Witness for C8: an errored trial against one expected defect is
scored `(0,0,1)` with zero precision/recall/F1 and its duration kept. -/
theorem claim_C8_failure_scoring_witness :
    scoreClaudeRun
        [{ ruleId := "r", selectorPattern := "img", impact := "critical" }]
        { error := true, raw := [], durationMs := 5 } =
      { tp := 0, fp := 0, fn := 1, precision := 0, «recall» := 0, f1 := 0
        durationMs := 5 } :=
  claim_C8_failure_scoring.1
    [{ ruleId := "r", selectorPattern := "img", impact := "critical" }]
    { error := true, raw := [], durationMs := 5 } rfl

/-- Two clean trials against an empty expected set, differing only in
duration: both score precision = recall = F1 = 1, with durations 0
and 100. -/
def runsDurSample : List ClaudeRun :=
  [{ error := false, raw := [], durationMs := 0 },
   { error := false, raw := [], durationMs := 100 }]

/-- C9 as frozen is refuted at a concrete case: it asserts the
aggregator computes the population standard deviation of the duration
values too, but the per-case standard-deviation record (`claudeStddev`
in score.ts, `CaseScore` in types.ts) holds only the
precision/recall/F1 values — here all 0 — while the population
standard deviation of the duration series at the same case is 50, a
value equal to none of the standard deviations the aggregator
computes. -/
theorem claim_C9_counterexample :
    (caseClaudeStddev [] runsDurSample).precision = 0 ∧
    (caseClaudeStddev [] runsDurSample).«recall» = 0 ∧
    (caseClaudeStddev [] runsDurSample).f1 = 0 ∧
    stddev ((claudeRunScores [] runsDurSample).map RunScore.durationMs)
      = 50 ∧
    (50 : ℝ) ≠ 0 := by
  have hzero : stddev [(1 : ℚ), 1] = 0 := by
    rw [stddev, if_neg (by norm_num)]
    have hq : ((([(1 : ℚ), 1].map fun v =>
        (v - mean [(1 : ℚ), 1]) ^ 2).sum) / ([(1 : ℚ), 1].length : ℚ))
        = 0 := by
      norm_num [mean]
    rw [hq]
    simp
  have hfifty : stddev [(0 : ℚ), 100] = 50 := by
    rw [stddev, if_neg (by norm_num)]
    have hq : ((([(0 : ℚ), 100].map fun v =>
        (v - mean [(0 : ℚ), 100]) ^ 2).sum) / ([(0 : ℚ), 100].length : ℚ))
        = 2500 := by
      norm_num [mean]
    rw [hq]
    rw [show (((2500 : ℚ) : ℝ)) = (50 : ℝ) ^ 2 by norm_num]
    exact Real.sqrt_sq (by norm_num)
  have hp : (claudeRunScores [] runsDurSample).map RunScore.precision =
      [(1 : ℚ), 1] := rfl
  have hr : (claudeRunScores [] runsDurSample).map RunScore.«recall» =
      [(1 : ℚ), 1] := rfl
  have hf : (claudeRunScores [] runsDurSample).map RunScore.f1 =
      [(1 : ℚ), 1] := rfl
  have hd : (claudeRunScores [] runsDurSample).map RunScore.durationMs =
      [(0 : ℚ), 100] := rfl
  refine ⟨?_, ?_, ?_, ?_, by norm_num⟩
  · show stddev ((claudeRunScores [] runsDurSample).map
      RunScore.precision) = 0
    rw [hp]
    exact hzero
  · show stddev ((claudeRunScores [] runsDurSample).map
      RunScore.«recall») = 0
    rw [hr]
    exact hzero
  · show stddev ((claudeRunScores [] runsDurSample).map RunScore.f1) = 0
    rw [hf]
    exact hzero
  · rw [hd]
    exact hfifty

/-- C9 amended: the per-case aggregation computes the arithmetic mean
of the per-trial precision, recall, F1 and duration values, and the
population standard deviation of the per-trial precision, recall and
F1 values (no duration standard deviation is computed): `stddev` is 0
on fewer than 2 samples, and on `N ≥ 2` samples its square is
`Σ (v − mean)² / N` (division by `N`, not `N−1`); a case is flagged
inconsistent exactly when it has more than one trial and the standard
deviation of its per-trial F1 values exceeds 1/10 (equivalently, the
population variance exceeds 1/100). -/
theorem claim_C9_population_stddev :
    (∀ l : List ℚ, l.length ≤ 1 → stddev l = 0) ∧
    (∀ l : List ℚ, l ≠ [] → mean l = l.sum / l.length) ∧
    (∀ l : List ℚ, 2 ≤ l.length →
      stddev l ^ 2 =
        (((l.map fun v => (v - mean l) ^ 2).sum / l.length : ℚ) : ℝ)) ∧
    (∀ (expected : List ExpectedViolation) (runs : List ClaudeRun),
      caseClaudeMean expected runs =
        { precision := mean ((claudeRunScores expected runs).map
            RunScore.precision)
          «recall» := mean ((claudeRunScores expected runs).map
            RunScore.«recall»)
          f1 := mean ((claudeRunScores expected runs).map RunScore.f1)
          durationMs := mean ((claudeRunScores expected runs).map
            RunScore.durationMs) } ∧
      (caseClaudeStddev expected runs).precision =
        stddev ((claudeRunScores expected runs).map RunScore.precision) ∧
      (caseClaudeStddev expected runs).«recall» =
        stddev ((claudeRunScores expected runs).map RunScore.«recall») ∧
      (caseClaudeStddev expected runs).f1 = claudeStddevF1 expected runs) ∧
    (∀ (expected : List ExpectedViolation) (runs : List ClaudeRun),
      caseInconsistent expected runs ↔
        1 < runs.length ∧
          (1 : ℚ) / 100 <
            stddevSq ((claudeRunScores expected runs).map RunScore.f1)) := by
  refine ⟨?_, ?_, ?_, fun _ _ => ⟨rfl, rfl, rfl, rfl⟩, ?_⟩
  · intro l h
    rw [stddev, if_pos h]
  · intro l h
    rw [mean, if_neg (by simpa [List.length_eq_zero] using h)]
  · intro l h
    rw [stddev, if_neg (by omega)]
    rw [Real.sq_sqrt (by exact_mod_cast varQ_nonneg l)]
  · intro expected runs
    have hlen : ((claudeRunScores expected runs).map RunScore.f1).length =
        runs.length := by
      simp [claudeRunScores]
    constructor
    · rintro ⟨hn, hsd⟩
      have hn' : 1 < runs.length := by
        simpa [claudeRunScores] using hn
      exact ⟨hn', (one_tenth_lt_stddev_iff _ (by omega)).mp hsd⟩
    · rintro ⟨hn, hv⟩
      refine ⟨by simpa [claudeRunScores] using hn, ?_⟩
      exact (one_tenth_lt_stddev_iff _ (by omega)).mpr hv

/-- Witness for C9: a single-sample list has standard deviation 0, the
mean of `[1, 0]` is `1/2`, and the squared standard deviation of
`[1, 0]` is `1/4` (population variance, dividing by 2). -/
theorem claim_C9_population_stddev_witness :
    stddev [(5 : ℚ)] = 0 ∧ mean [(1 : ℚ), 0] = 1 / 2 ∧
      stddev [(1 : ℚ), 0] ^ 2 = (((1 : ℚ) / 4 : ℚ) : ℝ) := by
  refine ⟨claim_C9_population_stddev.1 [(5 : ℚ)] (by decide),
    ?_, ?_⟩
  · rw [claim_C9_population_stddev.2.1 [(1 : ℚ), 0] (by decide)]
    norm_num
  · rw [claim_C9_population_stddev.2.2.1 [(1 : ℚ), 0] (by decide)]
    norm_num [mean]

end Bench
